import Mathlib

/-!
Shallow embedding of the content-graph resolver of `src/Contentfully.ts`.

The resolver works on JSON-shaped JavaScript values.  The only objects whose
identity is observable are the link-index slots (`links[id]`): the source
mutates them in place (`link._id = ...`, `_.assign(link, parsed)`,
`delete link._deferred`) and returns them by reference, so repeat references
share one instance.  We model this with a string-keyed store (`St.links`,
one slot per record id, exactly the shape of the JS `links` object) and a
value constructor `JVal.ref id` standing for a reference to the slot keyed
`id`.  All other values are immutable trees, as in the source, where field
objects are freshly built per call.

Functions that can recurse through the link index (`_parseEntry`,
`_parseValue`, `_dereferenceLink`, ...) take a fuel argument: the source has
no cycle guard, so a genuinely cyclic payload makes them recurse forever,
which the embedding renders as `PRes.out` (fuel exhausted) for every fuel.
Terminating runs of the source agree with the embedding for every
sufficiently large fuel.

`St.trace` is ghost instrumentation: `parseEntry` records the `sys.id` of
each record whose field resolution it begins.  It is written, never read, by
the embedded code, and lets theorems count how often a record is resolved.
-/

/-- JSON-like JavaScript value.  `ref id` is a pointer to the link-index
slot keyed `id` (the slots are the only mutable, shared objects). -/
inductive JVal where
  | undef
  | null
  | bool (b : Bool)
  | num (n : Int)
  | str (s : String)
  | arr (elems : List JVal)
  | obj (fields : List (String × JVal))
  | ref (id : String)
deriving Repr

/-- A JavaScript object as an insertion-ordered association list (JS objects
keep key insertion order; raw JSON payloads have no duplicate keys). -/
abbrev JObj := List (String × JVal)

/-- Property read `o[k]` on an object, `undefined` when the key is absent. -/
def ogetO (fs : JObj) (k : String) : JVal :=
  match fs.find? (fun p => p.1 == k) with
  | some p => p.2
  | none => JVal.undef

/-- Property read `v[k]`: `undefined` when absent or when `v` is not an
object.  (JS property access on `null`/`undefined` throws a TypeError; the
spec, section 7, leaves such malformed payloads to the caller and no claim
exercises them, so the embedding returns `undefined` there.) -/
def oget : JVal → String → JVal
  | JVal.obj fs, k => ogetO fs k
  | _, _ => JVal.undef

/-- Property read returning `none` when the key is absent (used for lodash
`_.pick`, which distinguishes an absent key from an `undefined` value). -/
def ogetOpt : JVal → String → Option JVal
  | JVal.obj fs, k => (fs.find? (fun p => p.1 == k)).map (fun p => p.2)
  | _, _ => none

/-- Property write `o[k] = v`: replaces in place, appends new keys last
(JS object key order).  Polymorphic so the same operation also serves the
link index, a string-keyed JS object of slots. -/
def oset {α : Type} : List (String × α) → String → α → List (String × α)
  | [], k, v => [(k, v)]
  | (k0, v0) :: rest, k, v =>
    if k0 == k then (k, v) :: rest else (k0, v0) :: oset rest k v

/-- Property delete `delete o[k]`. -/
def odel (o : JObj) (k : String) : JObj :=
  o.filter (fun p => !(p.1 == k))

/-- `_.assign(target, source)`: copy the source bindings onto the target in
source order. -/
def oassign (target source : JObj) : JObj :=
  source.foldl (fun t p => oset t p.1 p.2) target

/-- Property write on a value: only objects accept it.  (`_parseValueByLocale`
can reach this with a non-object `values` after an Asset-link replaced it; in
JS that writes through the shared media object.  No claim exercises that
corner and the embedding leaves the value unchanged there.) -/
def osetV : JVal → String → JVal → JVal
  | JVal.obj fs, k, v => JVal.obj (oset fs k v)
  | w, _, _ => w

/-- `_.keys(v)`. -/
def keysOf : JVal → List String
  | JVal.obj fs => fs.map (fun p => p.1)
  | _ => []

/-- `Object.entries(v)` (also how lodash `_.forEach` iterates an object);
arrays enumerate index keys. -/
def entriesJ : JVal → List (String × JVal)
  | JVal.obj fs => fs
  | JVal.arr xs => xs.enum.map (fun p => (toString p.1, p.2))
  | _ => []

/-- Elements of an array value, `[]` otherwise (the `... || []` fallbacks). -/
def arrElems : JVal → List JVal
  | JVal.arr xs => xs
  | _ => []

/-- JavaScript truthiness. -/
def truthy : JVal → Bool
  | JVal.undef => false
  | JVal.null => false
  | JVal.bool b => b
  | JVal.num n => n != 0
  | JVal.str s => s != ""
  | _ => true

/-- Strict `=== undefined`. -/
def isUndef : JVal → Bool
  | JVal.undef => true
  | _ => false

/-- Loose `== undefined` (matches `undefined` and `null`). -/
def looseUndef : JVal → Bool
  | JVal.undef => true
  | JVal.null => true
  | _ => false

/-- `typeof v === "object"` (true for objects, arrays, `null`, and our slot
references, which stand for objects). -/
def typeofObject : JVal → Bool
  | JVal.null => true
  | JVal.arr _ => true
  | JVal.obj _ => true
  | JVal.ref _ => true
  | _ => false

/-- lodash `_.isArray`. -/
def isArr : JVal → Bool
  | JVal.arr _ => true
  | _ => false

/-- Strict `=== "s"` comparison of a value with a string literal. -/
def isStrEq (v : JVal) (s : String) : Bool :=
  match v with
  | JVal.str t => t == s
  | _ => false

/-- `_.compact`: drop falsy elements. -/
def jsCompact (xs : List JVal) : List JVal :=
  xs.filter truthy

/-- `_.pick(v, keys)`: sub-object holding the listed keys that exist. -/
def jsPick (v : JVal) (keys : List String) : JObj :=
  keys.filterMap (fun k => (ogetOpt v k).map (fun w => (k, w)))

/-- String content of a value, with a default. -/
def jstrD (v : JVal) (d : String) : String :=
  match v with
  | JVal.str s => s
  | _ => d

/-- Resolver state: the link index (`links`, one slot per record id, keyed
by id exactly as the JS object is) plus the ghost trace of records whose
field resolution has been entered. -/
structure St where
  links : List (String × JObj)
  trace : List String
deriving Repr

/-- Result of a fuel-indexed run: a value plus the updated state, or fuel
exhaustion (the embedding of non-termination) with the state reached. -/
inductive PRes (α : Type) where
  | ok (a : α) (st : St)
  | out (st : St)
deriving Repr

/-- Lookup in the link index, the string-keyed JS object of slots. -/
def linkAt (links : List (String × JObj)) (id : String) : Option JObj :=
  (links.find? (fun p => p.1 == id)).map (fun p => p.2)

/-- `links[id]` lookup. -/
def getSlot (st : St) (id : String) : Option JObj :=
  linkAt st.links id

/-- Mutate one property of the slot keyed `id` (in place: every holder of a
`ref id` sees the update).  No-op when the slot is absent, a case the
source only reaches by throwing. -/
def setSlotField (st : St) (id : String) (k : String) (v : JVal) : St :=
  { st with links := st.links.map (fun p => if p.1 == id then (p.1, oset p.2 k v) else p) }

/-- `_.assign(link, parsed)` on the slot keyed `id`. -/
def assignSlot (st : St) (id : String) (source : JObj) : St :=
  { st with links := st.links.map (fun p => if p.1 == id then (p.1, oassign p.2 source) else p) }

/-- `delete link[k]` on the slot keyed `id`. -/
def delSlotField (st : St) (id : String) (k : String) : St :=
  { st with links := st.links.map (fun p => if p.1 == id then (p.1, odel p.2 k) else p) }

/-- lodash `_.isEmpty`: true for `undefined`, `null`, numbers and booleans;
emptiness of strings, arrays and objects; a slot reference is as empty as
the slot object it points to in the link index. -/
def isEmptyL (links : List (String × JObj)) : JVal → Bool
  | JVal.undef => true
  | JVal.null => true
  | JVal.bool _ => true
  | JVal.num _ => true
  | JVal.str s => s == ""
  | JVal.arr xs => xs.isEmpty
  | JVal.obj fs => fs.isEmpty
  | JVal.ref id =>
    match linkAt links id with
    | some sl => sl.isEmpty
    | none => true

mutual

/-- `_parseEntry` (Contentfully.ts 228-256): build the resolved fields of a
raw record by visiting each declared field.  The ghost trace records that
resolution of this record's id was entered. -/
def parseEntry : Nat → JVal → Bool → St → PRes JObj
  | 0, _, _, st => .out st
  | fuel + 1, entry, multiLocale, st =>
    parseFields fuel (entriesJ (oget entry "fields")) multiLocale
      { st with trace := st.trace ++ [jstrD (oget (oget entry "sys") "id") ""] } []

/-- The `_.forEach(entry.fields, ...)` loop of `_parseEntry` (231-253),
threading the accumulated `fields` object. -/
def parseFields : Nat → List (String × JVal) → Bool → St → JObj → PRes JObj
  | 0, _, _, st, _ => .out st
  | _ + 1, [], _, st, fields => .ok fields st
  | fuel + 1, (key, value) :: rest, multiLocale, st, fields =>
    if multiLocale then
      match parseValueByLocale fuel value st with
      | .out st1 => .out st1
      | .ok parsedLocale st1 =>
        let fields1 :=
          if isEmptyL st1.links parsedLocale then fields else oset fields key parsedLocale
        parseFields fuel rest multiLocale st1 fields1
    else
      if isArr value then
        match parseValueList fuel (arrElems value) none st with
        | .out st1 => .out st1
        | .ok parsedList st1 =>
          parseFields fuel rest multiLocale st1
            (oset fields key (JVal.arr (jsCompact parsedList)))
      else
        match parseValue fuel value none st with
        | .out st1 => .out st1
        | .ok parsed st1 =>
          let fields1 :=
            if isEmptyL st1.links parsed then fields else oset fields key parsed
          parseFields fuel rest multiLocale st1 fields1

/-- `_parseValue` (285-295): values without a `sys.type === "Link"` marker
pass through; links are dereferenced. -/
def parseValue : Nat → JVal → Option String → St → PRes JVal
  | 0, _, _, st => .out st
  | fuel + 1, value, locale, st =>
    if isStrEq (oget (oget value "sys") "type") "Link" then
      dereferenceLink fuel value locale st
    else
      .ok value st

/-- The `_.map(value, item => this._parseValue(item, links, locale?))` over
an array field (243 and 265), threading state left to right. -/
def parseValueList : Nat → List JVal → Option String → St → PRes (List JVal)
  | 0, _, _, st => .out st
  | _ + 1, [], _, st => .ok [] st
  | fuel + 1, item :: rest, locale, st =>
    match parseValue fuel item locale st with
    | .out st1 => .out st1
    | .ok v st1 =>
      match parseValueList fuel rest locale st1 with
      | .out st2 => .out st2
      | .ok vs st2 => .ok (v :: vs) st2

/-- `_parseValueByLocale` (258-283). -/
def parseValueByLocale : Nat → JVal → St → PRes JVal
  | 0, _, st => .out st
  | fuel + 1, value, st =>
    parseLocales fuel value (keysOf value) (JVal.obj []) st

/-- The `_.forEach(locales, ...)` loop of `_parseValueByLocale` (262-280):
per-locale values resolve at their locale; an Asset link replaces the whole
`values` accumulator, an Entry link lands under its locale key. -/
def parseLocales : Nat → JVal → List String → JVal → St → PRes JVal
  | 0, _, _, _, st => .out st
  | _ + 1, _, [], values, st => .ok values st
  | fuel + 1, value, locale :: rest, values, st =>
    let vloc := oget value locale
    if isArr vloc then
      match parseValueList fuel (arrElems vloc) (some locale) st with
      | .out st1 => .out st1
      | .ok parsedList st1 =>
        parseLocales fuel value rest
          (osetV values locale (JVal.arr (jsCompact parsedList))) st1
    else
      let sysv := oget vloc "sys"
      if isStrEq (oget sysv "type") "Link" then
        match dereferenceLink fuel value (some locale) st with
        | .out st1 => .out st1
        | .ok link st1 =>
          if isStrEq (oget sysv "linkType") "Asset" then
            parseLocales fuel value rest link st1
          else
            parseLocales fuel value rest (osetV values locale link) st1
      else
        parseLocales fuel value rest (osetV values locale vloc) st

/-- `_dereferenceLink` (297-329).  A missing slot returns `undefined`
(broken reference, not an error).  A present slot gets its `_id` stamped,
and, if still deferred, its record's fields are resolved and merged onto
the same slot before `_deferred` is deleted; the returned value is a
reference to the slot either way. -/
def dereferenceLink : Nat → JVal → Option String → St → PRes JVal
  | 0, _, _, st => .out st
  | fuel + 1, reference, locale, st =>
    let sysv :=
      match locale with
      | some loc =>
        if (loc != "") && truthy (oget reference loc) then
          oget (oget reference loc) "sys"
        else oget reference "sys"
      | none => oget reference "sys"
    match oget sysv "id" with
    | JVal.str modelId =>
      match getSlot st modelId with
      | none => .ok JVal.undef st
      | some link =>
        let st1 := setSlotField st modelId "_id" (JVal.str modelId)
        let deferredV := ogetO link "_deferred"
        if truthy deferredV then
          let st2 := setSlotField st1 modelId "_type"
            (oget (oget (oget (oget deferredV "sys") "contentType") "sys") "id")
          match parseEntry fuel deferredV locale.isSome st2 with
          | .out st3 => .out st3
          | .ok parsed st3 =>
            .ok (JVal.ref modelId)
              (delSlotField (assignSlot st3 modelId parsed) modelId "_deferred")
        else
          .ok (JVal.ref modelId) st1
    | _ => .ok JVal.undef st

/-- `_parseEntries` (198-226): map each top-level item to its slot,
resolving the slot first if still deferred, then stamp `_id`, `_type` and
(when present) `_updatedAt` metadata.  A non-string or unlinked id would
make the source throw; the embedding yields `undefined` for that item. -/
def parseEntries : Nat → List JVal → Bool → St → PRes (List JVal)
  | 0, _, _, st => .out st
  | _ + 1, [], _, st => .ok [] st
  | fuel + 1, entry :: rest, multiLocale, st =>
    let sysv := oget entry "sys"
    match oget sysv "id" with
    | JVal.str modelId =>
      match getSlot st modelId with
      | none =>
        match parseEntries fuel rest multiLocale st with
        | .out st1 => .out st1
        | .ok vs st1 => .ok (JVal.undef :: vs) st1
      | some model =>
        let step : PRes Unit :=
          if truthy (ogetO model "_deferred") then
            match parseEntry fuel (ogetO model "_deferred") multiLocale st with
            | .out st1 => .out st1
            | .ok parsed st1 =>
              .ok () (delSlotField (assignSlot st1 modelId parsed) modelId "_deferred")
          else .ok () st
        match step with
        | .out st1 => .out st1
        | .ok _ st1 =>
          let st2 := setSlotField st1 modelId "_id" (JVal.str modelId)
          let st3 := setSlotField st2 modelId "_type"
            (oget (oget (oget sysv "contentType") "sys") "id")
          let st4 :=
            if truthy (oget sysv "updatedAt") then
              setSlotField st3 modelId "_updatedAt" (oget sysv "updatedAt")
            else st3
          match parseEntries fuel rest multiLocale st4 with
          | .out st5 => .out st5
          | .ok vs st5 => .ok (JVal.ref modelId :: vs) st5
    | _ =>
      match parseEntries fuel rest multiLocale st with
      | .out st1 => .out st1
      | .ok vs st1 => .ok (JVal.undef :: vs) st1

end

/-- The optional user media transform hook: may rewrite the media
descriptor or throw (modelled as `Except.error`). -/
abbrev MediaTransform := JObj → Except String JObj

/-- `_toMedia` (176-196): build the media descriptor from an asset's `sys`
and `fields` and pass it through the transform hook when one is given; a
hook failure is the `Except.error` case (an `await` rejection in JS). -/
def toMedia (sysv fields : JVal) (mediaTransform : Option MediaTransform) :
    Except String JObj :=
  let file := oget fields "file"
  let media : JObj :=
    [("_id", oget sysv "id"),
     ("url", oget file "url"),
     ("description", oget fields "description"),
     ("contentType", oget file "contentType"),
     ("dimensions", JVal.obj (jsPick (oget (oget file "details") "image") ["width", "height"])),
     ("size", oget (oget file "details") "size"),
     ("version", oget sysv "revision")]
  match mediaTransform with
  | none => .ok media
  | some t => t media

/-- `_parseAssetByLocale` (96-118): pivot an asset's field-to-locale map
into a locale-to-fields map, each locale group carrying the asset's `sys`. -/
def parseAssetByLocale (entry : JVal) : List (String × JVal) :=
  (entriesJ (oget entry "fields")).foldl
    (fun locales kf =>
      (keysOf kf.2).foldl
        (fun locales locale =>
          let cur :=
            match locales.find? (fun p => p.1 == locale) with
            | some p => p.2
            | none => JVal.obj [("sys", oget entry "sys"), ("fields", JVal.obj [])]
          oset locales locale
            (osetV cur "fields" (osetV (oget cur "fields") kf.1 (oget kf.2 locale))))
        locales)
    []

/-- Write `links[id] = slot` (a non-string id never occurs in well-formed
payloads; the source would key the index by its string coercion). -/
def setLink (links : List (String × JObj)) (idv : JVal) (slot : JObj) :
    List (String × JObj) :=
  match idv with
  | JVal.str s => oset links s slot
  | _ => links

/-- The per-locale media loop of `_createLinks` (135-149): each locale group
with a `file` is turned into a media descriptor with its `_id` pruned; a
transform failure is caught (and logged), so that locale is simply omitted
while the other locales proceed.  (The source runs the loop body as an
unawaited async callback; the settled contents of `media` are as modelled
here.) -/
def mediaByLocale (sysv : JVal) (locs : List (String × JVal))
    (mt : Option MediaTransform) (media : JObj) : JObj :=
  match locs with
  | [] => media
  | (locale, entry) :: rest =>
    let media1 :=
      if truthy (oget (oget entry "fields") "file") then
        match toMedia sysv (oget entry "fields") mt with
        | .ok transformed => oset media locale (JVal.obj (odel transformed "_id"))
        | .error _ => media
      else media
    mediaByLocale sysv rest mt media1

/-- The `includes.Asset` loop of `_createLinks` (126-156).  In single-locale
mode there is no try/catch around `_toMedia`, so a transform failure
propagates (`Except.error`). -/
def linkAssets (assets : List JVal) (multiLocale : Bool)
    (mt : Option MediaTransform) (links : List (String × JObj)) :
    Except String (List (String × JObj)) :=
  match assets with
  | [] => .ok links
  | asset :: rest =>
    let sysv := oget asset "sys"
    if multiLocale then
      let media := mediaByLocale sysv (parseAssetByLocale asset) mt []
      linkAssets rest multiLocale mt (setLink links (oget sysv "id") media)
    else
      match toMedia sysv (oget asset "fields") mt with
      | .error e => .error e
      | .ok media => linkAssets rest multiLocale mt (setLink links (oget sysv "id") media)

/-- The `includes.Entry` and `items` loops of `_createLinks` (159-170):
store each record as a deferred slot, overwriting earlier slots with the
same id. -/
def linkDeferred (entries : List JVal) (links : List (String × JObj)) :
    List (String × JObj) :=
  match entries with
  | [] => links
  | entry :: rest =>
    linkDeferred rest (setLink links (oget (oget entry "sys") "id") [("_deferred", entry)])

/-- `_createLinks` (120-174): included assets, then included entries, then
top-level items, later writes replacing earlier slots for the same id. -/
def createLinks (json : JVal) (multiLocale : Bool) (mt : Option MediaTransform) :
    Except String (List (String × JObj)) :=
  match linkAssets (arrElems (oget (oget json "includes") "Asset")) multiLocale mt [] with
  | .error e => .error e
  | .ok links =>
    .ok (linkDeferred (arrElems (oget json "items"))
          (linkDeferred (arrElems (oget (oget json "includes") "Entry")) links))

/-- The default-locale computation of `_flattenLocales` (344-347): the first
descriptor whose `default` is defined and truthy, else the fixed fallback
code `"en-US"`.  (A non-string `code` on the chosen descriptor is outside
the modelled domain.) -/
def defaultLocaleOf (locales : List JVal) : String :=
  match locales.find? (fun l => !(isUndef (oget l "default")) && truthy (oget l "default")) with
  | some l => jstrD (oget l "code") ""
  | none => "en-US"

mutual

/-- One tree node of the `_flattenLocales` walk (377-422), rendered as
recursion over the finite value tree: the source drains a FIFO queue of
(output context, source node) pairs, mutating each context after linking it
into its parent; on finite trees that fills exactly the structure built
here.  The fuel only guards the cyclic object graphs the source itself
documents as unsupported (`this does not handle circular references well`). -/
def flattenNode : Nat → String → String → JVal → JObj
  | 0, _, _, _ => []
  | fuel + 1, locale, defLoc, item => flattenEntries fuel locale defLoc (entriesJ item)

/-- The locale selection of `_flattenLocales` (379-385): "find the locale
value or fallback to default or use the value of the prop" — the target
locale's value when truthy, else the default locale's when truthy, else the
value unchanged. -/
def selectLocaleValue (locale defLoc : String) (valueObj : JVal) : JVal :=
  if truthy (oget valueObj locale) then oget valueObj locale
  else if truthy (oget valueObj defLoc) then oget valueObj defLoc
  else valueObj

/-- The `for ... of Object.entries(item)` loop (377-422): keys with a loosely
undefined value are skipped; the value at the target locale is selected when
truthy, else the default locale's when truthy, else the value itself;
primitives are copied, arrays element-wise, objects recursively. -/
def flattenEntries : Nat → String → String → List (String × JVal) → JObj
  | 0, _, _, _ => []
  | _ + 1, _, _, [] => []
  | fuel + 1, locale, defLoc, (key, valueObj) :: rest =>
    if looseUndef valueObj then flattenEntries fuel locale defLoc rest
    else
      let value := selectLocaleValue locale defLoc valueObj
      if !(typeofObject value) then
        (key, value) :: flattenEntries fuel locale defLoc rest
      else
        match value with
        | JVal.arr elems =>
          (key, JVal.arr (flattenArr fuel locale defLoc elems)) ::
            flattenEntries fuel locale defLoc rest
        | _ =>
          (key, JVal.obj (flattenNode fuel locale defLoc value)) ::
            flattenEntries fuel locale defLoc rest

/-- The array-element loop (407-421): primitive elements are copied in
place, object elements get a fresh nested context. -/
def flattenArr : Nat → String → String → List JVal → List JVal
  | 0, _, _, _ => []
  | _ + 1, _, _, [] => []
  | fuel + 1, locale, defLoc, e :: rest =>
    (if !(typeofObject e) then e else JVal.obj (flattenNode fuel locale defLoc e)) ::
      flattenArr fuel locale defLoc rest

end

/-- `_flattenLocales` (331-427): one flattened model list per declared
locale code, in declaration order. -/
def flattenLocales (fuel : Nat) (localesResult : List JVal) (items : List JVal) :
    List (String × JVal) :=
  let defLoc := defaultLocaleOf localesResult
  (localesResult.map (fun l => jstrD (oget l "code") "")).map
    (fun locale =>
      (locale, JVal.arr (items.map (fun item => JVal.obj (flattenNode fuel locale defLoc item)))))

/-- Replace slot references by the slot contents, recursively: the value of
the shared object graph as a tree (fuel-bounded since the graph may be
cyclic).  Used to state what a returned model looks like. -/
def deepResolve : Nat → St → JVal → JVal
  | 0, _, v => v
  | fuel + 1, st, JVal.ref id =>
    (match getSlot st id with
     | some sl => JVal.obj (sl.map (fun p => (p.1, deepResolve fuel st p.2)))
     | none => JVal.undef)
  | fuel + 1, st, JVal.arr xs => JVal.arr (xs.map (deepResolve fuel st))
  | fuel + 1, st, JVal.obj fs => JVal.obj (fs.map (fun p => (p.1, deepResolve fuel st p.2)))
  | _ + 1, _, v => v

/-- The payload-consuming tail of `_query` (61-93): the network fetch and
select-string construction are the external collaborator (spec section 6),
so the fetched payload `json` and, in multi-locale mode, the locale catalog
`localesResult` are inputs.  `locale` is `query.locale`; multi-locale mode
is `locale === "*"`.  The result is the literal `{items, skip, limit,
total}` object of lines 88-93.  In multi-locale mode the flattener runs on
the resolved object graph, modelled by its tree unfolding. -/
def runQuery (fuel : Nat) (json : JVal) (locale : Option JVal)
    (mt : Option MediaTransform) (localesResult : List JVal) :
    Except String (PRes JVal) :=
  let multiLocale :=
    match locale with
    | some l => truthy l && isStrEq l "*"
    | none => false
  match createLinks json multiLocale mt with
  | .error e => .error e
  | .ok links =>
    match parseEntries fuel (arrElems (oget json "items")) multiLocale ⟨links, []⟩ with
    | .out st => .ok (.out st)
    | .ok itemRefs st =>
      let itemsVal :=
        if multiLocale then
          JVal.obj (flattenLocales fuel localesResult (itemRefs.map (deepResolve fuel st)))
        else JVal.arr itemRefs
      .ok (.ok (JVal.obj
        [("items", itemsVal), ("skip", oget json "skip"),
         ("limit", oget json "limit"), ("total", oget json "total")]) st)

/-- `getModels` (30-32): a plain `_query` on the `/entries` payload. -/
def getModels (fuel : Nat) (json : JVal) (locale : Option JVal)
    (mt : Option MediaTransform) (localesResult : List JVal) :
    Except String (PRes JVal) :=
  runQuery fuel json locale mt localesResult

/-- `getModel` (26-28): a `_query` on the `/entries/` path for one id, with
no query and no options — the promise fulfils with whatever `_query`
returns for the one-record payload the collaborator serves for that path. -/
def getModelRun (fuel : Nat) (json : JVal) : Except String (PRes JVal) :=
  runQuery fuel json none none []

/-- A raw Contentful entry-link field value pointing at `id`. -/
def entryLink (id : String) : JVal :=
  JVal.obj [("sys", JVal.obj
    [("type", JVal.str "Link"), ("linkType", JVal.str "Entry"), ("id", JVal.str id)])]

/-- A raw asset-link field value pointing at `id`. -/
def assetLink (id : String) : JVal :=
  JVal.obj [("sys", JVal.obj
    [("type", JVal.str "Link"), ("linkType", JVal.str "Asset"), ("id", JVal.str id)])]

/-- The `sys` of a raw entry of content type `ctype`. -/
def entrySys (id ctype : String) : JVal :=
  JVal.obj [("id", JVal.str id),
    ("contentType", JVal.obj [("sys", JVal.obj [("id", JVal.str ctype)])])]

/-- A raw entry record. -/
def mkEntry (id ctype : String) (fields : JObj) : JVal :=
  JVal.obj [("sys", entrySys id ctype), ("fields", JVal.obj fields)]

/-- The included asset of the end-to-end example (spec section 8). -/
def assetA1 : JVal :=
  JVal.obj [("sys", JVal.obj [("id", JVal.str "a1")]),
    ("fields", JVal.obj
      [("file", JVal.obj
        [("url", JVal.str "/x.png"),
         ("contentType", JVal.str "image/png"),
         ("details", JVal.obj
           [("size", JVal.num 10),
            ("image", JVal.obj [("width", JVal.num 1), ("height", JVal.num 1)])])])])]

/-- The top-level entry of the end-to-end example (spec section 8). -/
def entryE1 : JVal :=
  mkEntry "e1" "post" [("title", JVal.str "Hi"), ("hero", assetLink "a1")]

/-- The end-to-end example payload: one included asset `a1`, one top-level
entry `e1` referencing it. -/
def payloadE2E : JVal :=
  JVal.obj [("items", JVal.arr [entryE1]),
    ("includes", JVal.obj [("Asset", JVal.arr [assetA1])]),
    ("skip", JVal.num 0), ("limit", JVal.num 100), ("total", JVal.num 1)]

/-- Cyclic payload: top-level entry `e1` references `e2`, included entry
`e2` references `e1` back (spec section 8, cycle termination). -/
def cycleE1 : JVal := mkEntry "e1" "post" [("other", entryLink "e2")]

/-- The included entry of the cyclic payload. -/
def cycleE2 : JVal := mkEntry "e2" "post" [("other", entryLink "e1")]

/-- The cyclic payload itself. -/
def payloadCycle : JVal :=
  JVal.obj [("items", JVal.arr [cycleE1]),
    ("includes", JVal.obj [("Entry", JVal.arr [cycleE2])]),
    ("skip", JVal.num 0), ("limit", JVal.num 100), ("total", JVal.num 1)]

/-- Ghost trace of a finished or fuel-exhausted run. -/
def traceOfRun : Except String (PRes JVal) → List String
  | .ok (.ok _ st) => st.trace
  | .ok (.out st) => st.trace
  | .error _ => []

/-- True when the run exhausted its fuel (the embedding of divergence). -/
def isOutRun : Except String (PRes JVal) → Bool
  | .ok (.out _) => true
  | _ => false

/-- State reached by a run, whether it finished or exhausted its fuel. -/
def stOf {α : Type} : PRes α → St
  | .ok _ st => st
  | .out st => st

/-- Value produced by a successful query run. -/
def valOfRun : Except String (PRes JVal) → JVal
  | .ok (.ok v _) => v
  | _ => JVal.undef

/-- Final state of a query run. -/
def stOfRun : Except String (PRes JVal) → St
  | .ok r => stOf r
  | .error _ => ⟨[], []⟩

/-- True when the run raised (a rejected promise at the top-level query). -/
def isErrorRun : Except String (PRes JVal) → Bool
  | .error _ => true
  | _ => false

/-- The `items` element that claim C3 predicts for the end-to-end example:
metadata keys spelled `id` and `type`, and a `hero` with key `id` and
without `description`/`version`.  (Stated from the claim's words, to be
compared with what the embedded source produces.) -/
def claimedModelE2E : JVal :=
  JVal.obj [("id", JVal.str "e1"), ("type", JVal.str "post"),
    ("title", JVal.str "Hi"),
    ("hero", JVal.obj
      [("id", JVal.str "a1"), ("url", JVal.str "/x.png"),
       ("contentType", JVal.str "image/png"),
       ("dimensions", JVal.obj [("width", JVal.num 1), ("height", JVal.num 1)]),
       ("size", JVal.num 10)])]

/-- The model the source actually produces for the end-to-end example:
metadata keys `_id`/`_type`, media keys `_id`, ... with `description` and
`version` present (as `undefined` for this payload). -/
def modelE2E : JVal :=
  JVal.obj [("title", JVal.str "Hi"),
    ("hero", JVal.obj
      [("_id", JVal.str "a1"), ("url", JVal.str "/x.png"),
       ("description", JVal.undef), ("contentType", JVal.str "image/png"),
       ("dimensions", JVal.obj [("width", JVal.num 1), ("height", JVal.num 1)]),
       ("size", JVal.num 10), ("version", JVal.undef)]),
    ("_id", JVal.str "e1"), ("_type", JVal.str "post")]

/-- The deep-resolved first item of the end-to-end query. -/
def e2eModel : JVal :=
  deepResolve 5 (stOfRun (getModels 20 payloadE2E none none [])) (JVal.ref "e1")

/-- The deep-resolved first item of the one-record `getModel` query. -/
def getModelItem : JVal :=
  deepResolve 5 (stOfRun (getModelRun 20 payloadE2E)) (JVal.ref "e1")

/-- A multi-locale asset with `file` values for `en-US` and `fr`. -/
def assetML : JVal :=
  JVal.obj [("sys", JVal.obj [("id", JVal.str "a1")]),
    ("fields", JVal.obj
      [("file", JVal.obj
        [("en-US", JVal.obj [("url", JVal.str "/en.png"),
           ("contentType", JVal.str "image/png"),
           ("details", JVal.obj [("size", JVal.num 1)])]),
         ("fr", JVal.obj [("url", JVal.str "/fr.png"),
           ("contentType", JVal.str "image/png"),
           ("details", JVal.obj [("size", JVal.num 2)])])])])]

/-- A media transform that throws exactly on the `fr` variant of `assetML`
(its url is `/fr.png`) and passes every other descriptor through. -/
def failFrTransform : MediaTransform := fun m =>
  match ogetO m "url" with
  | JVal.str u => if u == "/fr.png" then .error "boom" else .ok m
  | _ => .ok m

/-- A media transform that always throws. -/
def failAllTransform : MediaTransform := fun _ => .error "boom"

/-- Multi-locale payload holding only the asset `assetML`. -/
def payloadMLAsset : JVal :=
  JVal.obj [("items", JVal.arr []),
    ("includes", JVal.obj [("Asset", JVal.arr [assetML])]),
    ("skip", JVal.num 0), ("limit", JVal.num 1), ("total", JVal.num 0)]

/-- Single-locale payload holding only the asset `assetA1`. -/
def payloadSingleAsset : JVal :=
  JVal.obj [("items", JVal.arr []),
    ("includes", JVal.obj [("Asset", JVal.arr [assetA1])]),
    ("skip", JVal.num 0), ("limit", JVal.num 1), ("total", JVal.num 0)]

/-- The locale catalog used by the locale-flattening examples:
`en-US` (flagged default) and `fr`. -/
def localeEnUS : JVal := JVal.obj [("code", JVal.str "en-US"), ("default", JVal.bool true)]

/-- The non-default `fr` locale descriptor. -/
def localeFr : JVal := JVal.obj [("code", JVal.str "fr")]

/-- The last record in a payload list whose `sys.id` is `id` — the one
whose slot survives the link-index build (later writes overwrite). -/
def lastWithSysId (entries : List JVal) (id : String) : Option JVal :=
  entries.reverse.find? (fun e => isStrEq (oget (oget e "sys") "id") id)

/-- The media descriptor an asset resolves to when no transform is given. -/
def mediaOf (asset : JVal) : JObj :=
  match toMedia (oget asset "sys") (oget asset "fields") none with
  | .ok m => m
  | .error _ => []

/-- A payload with the given included assets, included entries and
top-level items. -/
def mkPayload (A E I : List JVal) : JVal :=
  JVal.obj [("items", JVal.arr I),
    ("includes", JVal.obj [("Asset", JVal.arr A), ("Entry", JVal.arr E)]),
    ("skip", JVal.num 0), ("limit", JVal.num 1), ("total", JVal.num 1)]

/-- An included copy of entry `d1` with the old title. -/
def dupInc : JVal := mkEntry "d1" "post" [("title", JVal.str "old")]

/-- The top-level copy of entry `d1` with the new title. -/
def dupItem : JVal := mkEntry "d1" "post" [("title", JVal.str "new")]

/-- Payload carrying `d1` both as an included entry (title "old") and as a
top-level item (title "new"). -/
def payloadDup : JVal :=
  JVal.obj [("items", JVal.arr [dupItem]),
    ("includes", JVal.obj [("Entry", JVal.arr [dupInc])]),
    ("skip", JVal.num 0), ("limit", JVal.num 1), ("total", JVal.num 1)]

/-- The cyclic payload's slot for a record once the resolver has stamped
`_id` and `_type` on it but before its `_deferred` marker was removed —
the shape both slots keep, forever, while the resolver loops. -/
def markedSlot (rec : JVal) (id : String) : JObj :=
  [("_deferred", rec), ("_id", JVal.str id), ("_type", JVal.str "post")]

/-- The link state the cyclic-payload resolution loops through: both slots
stamped yet still deferred; only the ghost trace keeps growing. -/
def stMarked (tr : List String) : St :=
  ⟨[("e2", markedSlot cycleE2 "e2"), ("e1", markedSlot cycleE1 "e1")], tr⟩

/-- C3, counterexample: on the end-to-end payload the returned items list is
the one-element list of the `e1` model, but that model's metadata keys are
`_id` and `_type` — there is no `id` key on the model and none on `hero` —
so the model is not the object the claim predicts (`claimedModelE2E`). -/
theorem c3_counterexample :
    valOfRun (getModels 20 payloadE2E none none []) =
      JVal.obj [("items", JVal.arr [JVal.ref "e1"]), ("skip", JVal.num 0),
        ("limit", JVal.num 100), ("total", JVal.num 1)] ∧
    oget e2eModel "id" = JVal.undef ∧
    oget e2eModel "_id" = JVal.str "e1" ∧
    oget (oget e2eModel "hero") "id" = JVal.undef ∧
    e2eModel ≠ claimedModelE2E :=
  ⟨rfl, rfl, rfl, rfl,
    fun h => JVal.noConfusion (show JVal.undef = JVal.str "e1" from
      congrArg (fun m => oget m "id") h)⟩

/-- C3, amended: `getModels` on the end-to-end payload returns items equal
to the one-element list holding the `e1` model, whose metadata keys are
`_id` and `_type` (values `"e1"`, `"post"`), `title` is `"Hi"`, and whose
`hero` is the media descriptor with keys `_id`, `url`, `description`,
`contentType`, `dimensions`, `size`, `version` (with `_id:"a1"`,
`url:"/x.png"`, `contentType:"image/png"`, dimensions 1x1, size 10, and
`description`/`version` undefined for this payload). -/
theorem c3_amended :
    valOfRun (getModels 20 payloadE2E none none []) =
      JVal.obj [("items", JVal.arr [JVal.ref "e1"]), ("skip", JVal.num 0),
        ("limit", JVal.num 100), ("total", JVal.num 1)] ∧
    e2eModel = modelE2E :=
  ⟨rfl, rfl⟩

/-- C4, counterexample: the promise of `getModel` fulfils with the full
paginated wrapper — its keys are `items`, `skip`, `limit`, `total`, it has
no model metadata (`_id` is absent) — and not with the resolved Model of
the one record. -/
theorem c4_counterexample :
    keysOf (valOfRun (getModelRun 20 payloadE2E)) = ["items", "skip", "limit", "total"] ∧
    oget (valOfRun (getModelRun 20 payloadE2E)) "_id" = JVal.undef ∧
    valOfRun (getModelRun 20 payloadE2E) ≠ getModelItem :=
  ⟨rfl, rfl,
    fun h => JVal.noConfusion (show JVal.undef = JVal.str "e1" from
      congrArg (fun m => oget m "_id") h)⟩

/-- C4, amended: `getModel(id)` runs a one-item query and fulfils with the
paginated QueryResult wrapper whose `items` list carries the resolved Model
of the record — the Model itself sits inside `items`, it is not the
fulfilment value. -/
theorem c4_amended :
    valOfRun (getModelRun 20 payloadE2E) =
      JVal.obj [("items", JVal.arr [JVal.ref "e1"]), ("skip", JVal.num 0),
        ("limit", JVal.num 100), ("total", JVal.num 1)] ∧
    getModelItem = modelE2E :=
  ⟨rfl, rfl⟩

/-- C8: a media-transform failure on the `fr` variant of a multi-locale
asset is caught — the link index still gets the asset's slot, holding only
the `en-US` media descriptor (the `fr` locale is omitted, `en-US` is
produced, with `_id` pruned), and the top-level multi-locale query does not
reject.  In single-locale mode there is no guard: the same failing
transform makes the top-level query reject with the transform's error. -/
theorem c8 :
    createLinks payloadMLAsset true (some failFrTransform) =
      .ok [("a1",
        [("en-US", JVal.obj
          [("url", JVal.str "/en.png"), ("description", JVal.undef),
           ("contentType", JVal.str "image/png"),
           ("dimensions", JVal.obj []), ("size", JVal.num 1),
           ("version", JVal.undef)])])] ∧
    isErrorRun (runQuery 20 payloadMLAsset (some (JVal.str "*"))
      (some failFrTransform) [localeEnUS, localeFr]) = false ∧
    runQuery 20 payloadSingleAsset none (some failAllTransform) [] = .error "boom" :=
  ⟨rfl, rfl, rfl⟩

/-- C9, counterexample: with locales `en-US` (default) and `fr`, a field
whose locale map holds the value `5` at `en-US` and the value `0` at `fr`
(present, but falsy) flattens at `fr` to `5`, the default locale's value —
not, as the claim states, to the value `0` present at the target locale.
`selectLocaleValue` is the selection step itself; `flattenLocales` shows it
end to end. -/
theorem c9_counterexample :
    selectLocaleValue "fr" "en-US"
      (JVal.obj [("en-US", JVal.num 5), ("fr", JVal.num 0)]) = JVal.num 5 ∧
    flattenLocales 10 [localeEnUS, localeFr]
      [JVal.obj [("x", JVal.obj [("en-US", JVal.num 5), ("fr", JVal.num 0)])]] =
      [("en-US", JVal.arr [JVal.obj [("x", JVal.num 5)]]),
       ("fr", JVal.arr [JVal.obj [("x", JVal.num 5)]])] ∧
    JVal.num 5 ≠ JVal.num 0 :=
  ⟨rfl, rfl, fun h => by simp at h⟩

/-- C9, amended: the default locale is the code of the first descriptor
flagged `default`, else the fixed fallback `"en-US"`; the flattener selects
the target locale's value when truthy, else the default locale's value when
truthy, else the value unchanged; in particular, with locales `en-US`
(default) and `fr` and a field present only at `en-US` with a truthy value,
the flattened `fr` output contains the `en-US` value at that field and the
flattened `en-US` output is unaffected. -/
theorem c9_amended :
    (∀ valueObj : JVal, ∀ locale defLoc : String,
      truthy (oget valueObj locale) = true →
      selectLocaleValue locale defLoc valueObj = oget valueObj locale) ∧
    (∀ valueObj : JVal, ∀ locale defLoc : String,
      truthy (oget valueObj locale) = false →
      truthy (oget valueObj defLoc) = true →
      selectLocaleValue locale defLoc valueObj = oget valueObj defLoc) ∧
    (∀ valueObj : JVal, ∀ locale defLoc : String,
      truthy (oget valueObj locale) = false →
      truthy (oget valueObj defLoc) = false →
      selectLocaleValue locale defLoc valueObj = valueObj) ∧
    defaultLocaleOf [localeFr, JVal.obj [("code", JVal.str "en-GB"), ("default", JVal.bool true)]] = "en-GB" ∧
    defaultLocaleOf [localeFr] = "en-US" ∧
    flattenLocales 10 [localeEnUS, localeFr]
      [JVal.obj [("x", JVal.obj [("en-US", JVal.str "Hi")])]] =
      [("en-US", JVal.arr [JVal.obj [("x", JVal.str "Hi")]]),
       ("fr", JVal.arr [JVal.obj [("x", JVal.str "Hi")]])] :=
  ⟨fun v l d h => by simp [selectLocaleValue, h],
   fun v l d h1 h2 => by simp [selectLocaleValue, h1, h2],
   fun v l d h1 h2 => by simp [selectLocaleValue, h1, h2],
   rfl, rfl, rfl⟩

/-- Resolving a single-locale entry with one non-array, non-link field:
the field key survives exactly when lodash `_.isEmpty` is false for the
parsed value, which for a non-link value is the value itself. -/
theorem parseEntry_scalar (fuel : Nat) (eid ct key : String) (v : JVal) (st : St)
    (hnl : isStrEq (oget (oget v "sys") "type") "Link" = false)
    (hna : ∀ xs, v ≠ JVal.arr xs) :
    parseEntry (fuel + 3) (mkEntry eid ct [(key, v)]) false st =
      .ok (if isEmptyL st.links v then [] else [(key, v)])
        { st with trace := st.trace ++ [eid] } := by
  cases v with
  | arr xs => exact absurd rfl (hna xs)
  | obj fs =>
    simp only [oget, ogetO] at hnl
    simp only [parseEntry, parseFields, parseValue, mkEntry, entrySys, oget, ogetO,
      entriesJ, jstrD, List.find?, String.reduceBEq, Bool.false_eq_true, if_false, hnl,
      isArr, oset]
  | _ => rfl

/-- C10: in single-locale mode a non-array, non-reference field is kept in
the output fields exactly when lodash `_.isEmpty` of its parsed value is
false — so every number field, every boolean field and every empty-string
field is silently dropped, while a non-empty string is kept. -/
theorem c10 :
    (∀ fuel : Nat, ∀ eid ct key : String, ∀ n : Int, ∀ st : St,
      parseEntry (fuel + 3) (mkEntry eid ct [(key, JVal.num n)]) false st =
        .ok [] { st with trace := st.trace ++ [eid] }) ∧
    (∀ fuel : Nat, ∀ eid ct key : String, ∀ b : Bool, ∀ st : St,
      parseEntry (fuel + 3) (mkEntry eid ct [(key, JVal.bool b)]) false st =
        .ok [] { st with trace := st.trace ++ [eid] }) ∧
    (∀ fuel : Nat, ∀ eid ct key : String, ∀ st : St,
      parseEntry (fuel + 3) (mkEntry eid ct [(key, JVal.str "")]) false st =
        .ok [] { st with trace := st.trace ++ [eid] }) ∧
    (∀ fuel : Nat, ∀ eid ct key s : String, ∀ st : St, s ≠ "" →
      parseEntry (fuel + 3) (mkEntry eid ct [(key, JVal.str s)]) false st =
        .ok [(key, JVal.str s)] { st with trace := st.trace ++ [eid] }) ∧
    (∀ fuel : Nat, ∀ eid ct key : String, ∀ v : JVal, ∀ st : St,
      isStrEq (oget (oget v "sys") "type") "Link" = false →
      (∀ xs, v ≠ JVal.arr xs) →
      parseEntry (fuel + 3) (mkEntry eid ct [(key, v)]) false st =
        .ok (if isEmptyL st.links v then [] else [(key, v)])
          { st with trace := st.trace ++ [eid] }) :=
  ⟨fun fuel eid ct key n st => rfl,
   fun fuel eid ct key b st => rfl,
   fun fuel eid ct key st => rfl,
   fun fuel eid ct key s st h => by
     rw [parseEntry_scalar fuel eid ct key (JVal.str s) st rfl (fun xs hx => JVal.noConfusion hx)]
     simp [isEmptyL, h],
   fun fuel eid ct key v st hnl hna => parseEntry_scalar fuel eid ct key v st hnl hna⟩

/-- C10, witness: the omission rule at concrete inputs — the number field
`7`, the boolean field `true` and the empty-string field are dropped, the
string field `"a"` and a non-empty object field are kept. -/
theorem c10_witness :
    parseEntry 3 (mkEntry "e" "t" [("k", JVal.num 7)]) false ⟨[], []⟩ =
      .ok [] ⟨[], ["e"]⟩ ∧
    parseEntry 3 (mkEntry "e" "t" [("k", JVal.bool true)]) false ⟨[], []⟩ =
      .ok [] ⟨[], ["e"]⟩ ∧
    parseEntry 3 (mkEntry "e" "t" [("k", JVal.str "")]) false ⟨[], []⟩ =
      .ok [] ⟨[], ["e"]⟩ ∧
    parseEntry 3 (mkEntry "e" "t" [("k", JVal.str "a")]) false ⟨[], []⟩ =
      .ok [("k", JVal.str "a")] ⟨[], ["e"]⟩ ∧
    parseEntry 3 (mkEntry "e" "t" [("k", JVal.obj [("z", JVal.num 1)])]) false ⟨[], []⟩ =
      .ok [("k", JVal.obj [("z", JVal.num 1)])] ⟨[], ["e"]⟩ :=
  ⟨c10.1 0 "e" "t" "k" 7 ⟨[], []⟩,
   c10.2.1 0 "e" "t" "k" true ⟨[], []⟩,
   c10.2.2.1 0 "e" "t" "k" ⟨[], []⟩,
   c10.2.2.2.1 0 "e" "t" "k" "a" ⟨[], []⟩ (by decide),
   c10.2.2.2.2 0 "e" "t" "k" (JVal.obj [("z", JVal.num 1)]) ⟨[], []⟩ rfl
     (fun xs hx => JVal.noConfusion hx)⟩

/-- C9, witness: the amended selection rules applied at concrete inputs —
a truthy `fr` value is taken at `fr`, a missing `fr` value falls back to
the truthy `en-US` value, and a locale map falsy everywhere is passed
through unchanged. -/
theorem c9_witness :
    selectLocaleValue "fr" "en-US"
      (JVal.obj [("en-US", JVal.str "Hi"), ("fr", JVal.str "Salut")]) = JVal.str "Salut" ∧
    selectLocaleValue "fr" "en-US"
      (JVal.obj [("en-US", JVal.str "Hi")]) = JVal.str "Hi" ∧
    selectLocaleValue "fr" "en-US"
      (JVal.obj [("en-US", JVal.str "")]) = JVal.obj [("en-US", JVal.str "")] :=
  ⟨c9_amended.1 (JVal.obj [("en-US", JVal.str "Hi"), ("fr", JVal.str "Salut")]) "fr" "en-US" rfl,
   c9_amended.2.1 (JVal.obj [("en-US", JVal.str "Hi")]) "fr" "en-US" rfl rfl,
   c9_amended.2.2.1 (JVal.obj [("en-US", JVal.str "")]) "fr" "en-US" rfl rfl⟩

/-- Cons step of a link-index lookup. -/
theorem linkAt_cons (p : String × JObj) (rest : List (String × JObj)) (id : String) :
    linkAt (p :: rest) id = if p.1 = id then some p.2 else linkAt rest id := by
  by_cases h : p.1 = id
  · simp [linkAt, List.find?, h]
  · have hb : (p.1 == id) = false := by simp [h]
    simp [linkAt, List.find?, hb, h]

theorem oset_cons {α : Type} (k0 : String) (v0 : α) (rest : List (String × α)) (k : String) (v : α) :
    oset ((k0, v0) :: rest) k v = if k0 = k then (k, v) :: rest else (k0, v0) :: oset rest k v := by
  by_cases h : k0 = k <;> simp [oset, h]

theorem linkAt_oset_self (links : List (String × JObj)) (id : String) (v : JObj) :
    linkAt (oset links id v) id = some v := by
  induction links with
  | nil => simp [oset, linkAt, List.find?]
  | cons p rest ih =>
    obtain ⟨k0, v0⟩ := p
    rw [oset_cons]
    by_cases h : k0 = id
    · simp [h, linkAt_cons]
    · simp [h, linkAt_cons, ih]

theorem linkAt_oset_ne (links : List (String × JObj)) (k id : String) (v : JObj)
    (h : k ≠ id) : linkAt (oset links k v) id = linkAt links id := by
  induction links with
  | nil =>
    have hb : (k == id) = false := by simp [h]
    simp [oset, linkAt, List.find?, hb]
  | cons p rest ih =>
    obtain ⟨k0, v0⟩ := p
    rw [oset_cons]
    by_cases hp : k0 = k
    · subst hp; simp [linkAt_cons, h]
    · rw [if_neg hp, linkAt_cons, linkAt_cons]
      by_cases hq : k0 = id <;> simp [hq, ih]

theorem setLink_linkAt (links : List (String × JObj)) (idv : JVal) (slot : JObj) (id : String) :
    linkAt (setLink links idv slot) id =
      if isStrEq idv id then some slot else linkAt links id := by
  cases idv <;> simp only [setLink, isStrEq]
  case str s =>
    by_cases h : s = id
    · subst h; simp [linkAt_oset_self]
    · simp [h, linkAt_oset_ne links s id slot h]
  all_goals simp

theorem linkDeferred_linkAt (entries : List JVal) (links : List (String × JObj)) (id : String) :
    linkAt (linkDeferred entries links) id =
      match lastWithSysId entries id with
      | some e => some [("_deferred", e)]
      | none => linkAt links id := by
  induction entries generalizing links with
  | nil => simp [linkDeferred, lastWithSysId, List.find?]
  | cons e rest ih =>
    simp only [linkDeferred, ih, lastWithSysId, List.reverse_cons, List.find?_append]
    cases hr : List.find? (fun e => isStrEq (oget (oget e "sys") "id") id) rest.reverse with
    | some e1 => simp [Option.or]
    | none =>
      simp only [Option.or, List.find?]
      cases hm : isStrEq (oget (oget e "sys") "id") id with
      | true =>
        cases hv : oget (oget e "sys") "id" with
        | str s =>
          rw [hv] at hm
          simp only [isStrEq] at hm
          simp [setLink_linkAt, hv, isStrEq, hm]
        | _ => rw [hv] at hm; simp [isStrEq] at hm
      | false => simp [setLink_linkAt, hm]

theorem linkAssets_ok (assets : List JVal) (links : List (String × JObj)) :
    linkAssets assets false none links =
      .ok (assets.foldl (fun l a => setLink l (oget (oget a "sys") "id") (mediaOf a)) links) := by
  induction assets generalizing links with
  | nil => rfl
  | cons a rest ih => simp [linkAssets, toMedia, mediaOf, ih, List.foldl]

theorem foldl_setLink_linkAt (assets : List JVal) (links : List (String × JObj)) (id : String) :
    linkAt (assets.foldl (fun l a => setLink l (oget (oget a "sys") "id") (mediaOf a)) links) id =
      match lastWithSysId assets id with
      | some a => some (mediaOf a)
      | none => linkAt links id := by
  induction assets generalizing links with
  | nil => simp [lastWithSysId, List.find?]
  | cons a rest ih =>
    simp only [List.foldl, ih, lastWithSysId, List.reverse_cons, List.find?_append]
    cases hr : List.find? (fun e => isStrEq (oget (oget e "sys") "id") id) rest.reverse with
    | some a1 => simp [Option.or]
    | none =>
      simp only [Option.or, List.find?]
      cases hm : isStrEq (oget (oget a "sys") "id") id with
      | true =>
        cases hv : oget (oget a "sys") "id" with
        | str s =>
          rw [hv] at hm
          simp only [isStrEq] at hm
          simp [setLink_linkAt, hv, isStrEq, hm]
        | _ => rw [hv] at hm; simp [isStrEq] at hm
      | false => simp [setLink_linkAt, hm]

/-- Membership in the keys of an object after a property write. -/
theorem mem_oset_keys {α : Type} (l : List (String × α)) (k a : String) (v : α) :
    a ∈ (oset l k v).map Prod.fst ↔ a ∈ l.map Prod.fst ∨ a = k := by
  induction l with
  | nil => simp [oset]
  | cons p rest ih =>
    obtain ⟨k0, v0⟩ := p
    rw [oset_cons]
    by_cases h : k0 = k
    · subst h
      rw [if_pos rfl]
      simp only [List.map_cons, List.mem_cons]
      tauto
    · rw [if_neg h]
      simp only [List.map_cons, List.mem_cons, ih]
      tauto

/-- A property write keeps the keys of an object duplicate-free. -/
theorem oset_keys_nodup {α : Type} (l : List (String × α)) (k : String) (v : α)
    (h : (l.map Prod.fst).Nodup) : ((oset l k v).map Prod.fst).Nodup := by
  induction l with
  | nil => simp [oset]
  | cons p rest ih =>
    obtain ⟨k0, v0⟩ := p
    rw [oset_cons]
    by_cases hk : k0 = k
    · subst hk
      simpa using h
    · rw [if_neg hk]
      simp only [List.map_cons, List.nodup_cons] at h ⊢
      refine ⟨?_, ih h.2⟩
      rw [mem_oset_keys]
      rintro (hin | rfl)
      · exact h.1 hin
      · exact hk rfl

/-- A link-index write keeps the slot keys duplicate-free. -/
theorem setLink_keys_nodup (links : List (String × JObj)) (idv : JVal) (slot : JObj)
    (h : (links.map Prod.fst).Nodup) : ((setLink links idv slot).map Prod.fst).Nodup := by
  cases idv <;> simp only [setLink] <;> try exact h
  exact oset_keys_nodup _ _ _ h

/-- The deferred-slot loops keep the slot keys duplicate-free. -/
theorem linkDeferred_keys_nodup (entries : List JVal) (links : List (String × JObj))
    (h : (links.map Prod.fst).Nodup) :
    ((linkDeferred entries links).map Prod.fst).Nodup := by
  induction entries generalizing links with
  | nil => exact h
  | cons e rest ih => exact ih _ (setLink_keys_nodup _ _ _ h)

/-- The asset loop keeps the slot keys duplicate-free. -/
theorem foldl_setLink_keys_nodup (assets : List JVal) (links : List (String × JObj))
    (h : (links.map Prod.fst).Nodup) :
    ((assets.foldl (fun l a => setLink l (oget (oget a "sys") "id") (mediaOf a)) links).map
      Prod.fst).Nodup := by
  induction assets generalizing links with
  | nil => exact h
  | cons a rest ih => exact ih _ (setLink_keys_nodup _ _ _ h)

/-- What `_createLinks` builds on a generic single-locale payload with no
media transform: assets first, then included entries, then items. -/
theorem createLinks_mkPayload (A E I : List JVal) :
    createLinks (mkPayload A E I) false none =
      .ok (linkDeferred I (linkDeferred E
        (A.foldl (fun l a => setLink l (oget (oget a "sys") "id") (mediaOf a)) []))) := by
  show (match linkAssets A false none [] with
    | Except.error e => Except.error e
    | Except.ok links =>
      Except.ok (linkDeferred I (linkDeferred E links)) :
      Except String (List (String × JObj))) = _
  rw [linkAssets_ok]

/-- C5: after the link-index build the slot for an id is the one written by
the latest source in the order included assets, included entries, top-level
items (within a source, the last record with that id); the index holds at
most one slot per id; and on the concrete payload where `d1` is both an
included entry (title "old") and a top-level item (title "new"), the
resolved model carries the item's title "new". -/
theorem c5 :
    (∀ A E I : List JVal, ∀ id : String, ∀ L : List (String × JObj),
      createLinks (mkPayload A E I) false none = .ok L →
      linkAt L id =
        match lastWithSysId I id with
        | some e => some [("_deferred", e)]
        | none =>
          match lastWithSysId E id with
          | some e => some [("_deferred", e)]
          | none =>
            match lastWithSysId A id with
            | some a => some (mediaOf a)
            | none => none) ∧
    (∀ A E I : List JVal, ∀ L : List (String × JObj),
      createLinks (mkPayload A E I) false none = .ok L →
      (L.map Prod.fst).Nodup) ∧
    valOfRun (runQuery 20 payloadDup none none []) =
      JVal.obj [("items", JVal.arr [JVal.ref "d1"]), ("skip", JVal.num 0),
        ("limit", JVal.num 1), ("total", JVal.num 1)] ∧
    deepResolve 5 (stOfRun (runQuery 20 payloadDup none none [])) (JVal.ref "d1") =
      JVal.obj [("title", JVal.str "new"), ("_id", JVal.str "d1"), ("_type", JVal.str "post")] := by
  refine ⟨?_, ?_, rfl, rfl⟩
  · intro A E I id L h
    rw [createLinks_mkPayload] at h
    simp only [Except.ok.injEq] at h
    subst h
    rw [linkDeferred_linkAt, linkDeferred_linkAt, foldl_setLink_linkAt]
    rfl
  · intro A E I L h
    rw [createLinks_mkPayload] at h
    simp only [Except.ok.injEq] at h
    subst h
    exact linkDeferred_keys_nodup _ _ (linkDeferred_keys_nodup _ _
      (foldl_setLink_keys_nodup _ _ (by simp)))

/-- C5, witness: on the duplicate-id payload (no assets, included entry
`d1` titled "old", top-level item `d1` titled "new") the link index holds
exactly the one slot deferring the top-level item, and its keys are
duplicate-free. -/
theorem c5_witness :
    createLinks (mkPayload [] [dupInc] [dupItem]) false none =
      .ok [("d1", [("_deferred", dupItem)])] ∧
    linkAt [("d1", [("_deferred", dupItem)])] "d1" = some [("_deferred", dupItem)] ∧
    (([("d1", [("_deferred", dupItem)])] : List (String × JObj)).map Prod.fst).Nodup :=
  ⟨rfl,
   c5.1 [] [dupInc] [dupItem] "d1" _ rfl,
   c5.2.1 [] [dupInc] [dupItem] _ rfl⟩

/-- Fuel exhaustion propagates out of a record's field resolution. -/
theorem parseEntry_out (fuel : Nat) (entry : JVal) (multi : Bool) (st : St) (s : St)
    (hout : parseFields fuel (entriesJ (oget entry "fields")) multi
      { st with trace := st.trace ++ [jstrD (oget (oget entry "sys") "id") ""] } [] = .out s) :
    parseEntry (fuel + 1) entry multi st = .out s := hout

/-- Fuel exhaustion propagates out of a one-field, single-locale field loop
whose value is an object. -/
theorem parseFields_single_obj_out (fuel : Nat) (key : String) (fs : List (String × JVal))
    (st : St) (s : St)
    (hout : parseValue fuel (JVal.obj fs) none st = .out s) :
    parseFields (fuel + 1) [(key, JVal.obj fs)] false st [] = .out s := by
  simp only [parseFields, Bool.false_eq_true, if_false, isArr, hout]

/-- Fuel exhaustion propagates out of parsing a link value. -/
theorem parseValue_link_out (fuel : Nat) (value : JVal) (st : St) (s : St)
    (hl : isStrEq (oget (oget value "sys") "type") "Link" = true)
    (hout : dereferenceLink fuel value none st = .out s) :
    parseValue (fuel + 1) value none st = .out s := by
  simp only [parseValue, hl, if_true]
  exact hout

/-- Fuel exhaustion propagates out of dereferencing a still-deferred slot. -/
theorem dereferenceLink_defer_out (fuel : Nat) (reference : JVal) (st : St)
    (mid : String) (sl : JObj) (s : St)
    (href : oget (oget reference "sys") "id" = JVal.str mid)
    (hsl : getSlot st mid = some sl)
    (hdef : truthy (ogetO sl "_deferred") = true)
    (hout : parseEntry fuel (ogetO sl "_deferred") false
      (setSlotField (setSlotField st mid "_id" (JVal.str mid)) mid "_type"
        (oget (oget (oget (oget (ogetO sl "_deferred") "sys") "contentType") "sys") "id")) = .out s) :
    dereferenceLink (fuel + 1) reference none st = .out s := by
  simp only [dereferenceLink, href, hsl, hdef, if_true, Option.isSome_none, hout]

/-- Fuel exhaustion propagates out of the top-level item loop when the first
item's deferred resolution exhausts the fuel. -/
theorem parseEntries_cons_out (fuel : Nat) (entry : JVal) (rest : List JVal)
    (multi : Bool) (st : St) (mid : String) (sl : JObj) (s : St)
    (hid : oget (oget entry "sys") "id" = JVal.str mid)
    (hsl : getSlot st mid = some sl)
    (hdef : truthy (ogetO sl "_deferred") = true)
    (hout : parseEntry fuel (ogetO sl "_deferred") multi st = .out s) :
    parseEntries (fuel + 1) (entry :: rest) multi st = .out s := by
  simp only [parseEntries, hid, hsl, hdef, if_true, hout]

/-- A query whose item resolution exhausts its fuel reports fuel exhaustion. -/
theorem runQuery_out (fuel : Nat) (json : JVal) (mt : Option MediaTransform)
    (lr : List JVal) (links : List (String × JObj)) (s : St)
    (hcl : createLinks json false mt = .ok links)
    (h : parseEntries fuel (arrElems (oget json "items")) false ⟨links, []⟩ = .out s) :
    runQuery fuel json none mt lr = .ok (.out s) := by
  simp only [runQuery, hcl, h]

/-- On the cyclic payload the resolver, once both slots are stamped, runs the
same eight stages forever: for every fuel, every stage exhausts it.  (This is
the loop `_parseEntry e1 -> _dereferenceLink e2 -> _parseEntry e2 ->
_dereferenceLink e1 -> _parseEntry e1 -> ...`, which never deletes either
`_deferred` marker because the deletion sits after the recursive call.) -/
theorem cycleMarked_out : ∀ fuel : Nat,
    (∀ tr, ∃ s, parseEntry fuel cycleE1 false (stMarked tr) = .out s) ∧
    (∀ tr, ∃ s, parseFields fuel [("other", entryLink "e2")] false (stMarked tr) [] = .out s) ∧
    (∀ tr, ∃ s, parseValue fuel (entryLink "e2") none (stMarked tr) = .out s) ∧
    (∀ tr, ∃ s, dereferenceLink fuel (entryLink "e2") none (stMarked tr) = .out s) ∧
    (∀ tr, ∃ s, parseEntry fuel cycleE2 false (stMarked tr) = .out s) ∧
    (∀ tr, ∃ s, parseFields fuel [("other", entryLink "e1")] false (stMarked tr) [] = .out s) ∧
    (∀ tr, ∃ s, parseValue fuel (entryLink "e1") none (stMarked tr) = .out s) ∧
    (∀ tr, ∃ s, dereferenceLink fuel (entryLink "e1") none (stMarked tr) = .out s) := by
  intro fuel
  induction fuel with
  | zero =>
    exact ⟨fun tr => ⟨stMarked tr, rfl⟩, fun tr => ⟨stMarked tr, rfl⟩,
      fun tr => ⟨stMarked tr, rfl⟩, fun tr => ⟨stMarked tr, rfl⟩,
      fun tr => ⟨stMarked tr, rfl⟩, fun tr => ⟨stMarked tr, rfl⟩,
      fun tr => ⟨stMarked tr, rfl⟩, fun tr => ⟨stMarked tr, rfl⟩⟩
  | succ f ih =>
    obtain ⟨ih1, ih2, ih3, ih4, ih5, ih6, ih7, ih8⟩ := ih
    refine ⟨?_, ?_, ?_, ?_, ?_, ?_, ?_, ?_⟩
    · intro tr
      obtain ⟨s, hs⟩ := ih2 (tr ++ ["e1"])
      exact ⟨s, parseEntry_out f cycleE1 false (stMarked tr) s hs⟩
    · intro tr
      obtain ⟨s, hs⟩ := ih3 tr
      exact ⟨s, parseFields_single_obj_out f "other" _ (stMarked tr) s hs⟩
    · intro tr
      obtain ⟨s, hs⟩ := ih4 tr
      exact ⟨s, parseValue_link_out f (entryLink "e2") (stMarked tr) s rfl hs⟩
    · intro tr
      obtain ⟨s, hs⟩ := ih5 tr
      exact ⟨s, dereferenceLink_defer_out f (entryLink "e2") (stMarked tr) "e2"
        (markedSlot cycleE2 "e2") s rfl rfl rfl hs⟩
    · intro tr
      obtain ⟨s, hs⟩ := ih6 (tr ++ ["e2"])
      exact ⟨s, parseEntry_out f cycleE2 false (stMarked tr) s hs⟩
    · intro tr
      obtain ⟨s, hs⟩ := ih7 tr
      exact ⟨s, parseFields_single_obj_out f "other" _ (stMarked tr) s hs⟩
    · intro tr
      obtain ⟨s, hs⟩ := ih8 tr
      exact ⟨s, parseValue_link_out f (entryLink "e1") (stMarked tr) s rfl hs⟩
    · intro tr
      obtain ⟨s, hs⟩ := ih1 tr
      exact ⟨s, dereferenceLink_defer_out f (entryLink "e1") (stMarked tr) "e1"
        (markedSlot cycleE1 "e1") s rfl rfl rfl hs⟩

/-- C2: the claim's intended termination is violated by the code — on the
cyclic payload (top-level `e1` referencing included `e2`, which references
`e1` back) entry resolution never terminates: for every fuel the query run
ends in fuel exhaustion, the embedding of unbounded recursion (in JS, a
stack overflow).  `_dereferenceLink` deletes a slot's `_deferred` marker
only after the recursive `_parseEntry` returns, so the second visit to a
still-in-progress record re-enters its field resolution instead of reusing
it. -/
theorem c2 : ∀ fuel : Nat, isOutRun (runQuery fuel payloadCycle none none []) = true := by
  intro fuel
  rcases Nat.lt_or_ge fuel 9 with h | h
  · interval_cases fuel <;> rfl
  · obtain ⟨n, rfl⟩ : ∃ n, fuel = n + 9 := ⟨fuel - 9, by omega⟩
    obtain ⟨s, hs⟩ := (cycleMarked_out n).1 ["e1", "e2"]
    have h8 : dereferenceLink (n + 1) (entryLink "e1")
        none ⟨[("e2", markedSlot cycleE2 "e2"), ("e1", [("_deferred", cycleE1)])], ["e1", "e2"]⟩ = .out s :=
      dereferenceLink_defer_out n (entryLink "e1") _ "e1" [("_deferred", cycleE1)] s rfl rfl rfl hs
    have h7 : parseValue (n + 2) (entryLink "e1")
        none ⟨[("e2", markedSlot cycleE2 "e2"), ("e1", [("_deferred", cycleE1)])], ["e1", "e2"]⟩ = .out s :=
      parseValue_link_out (n + 1) _ _ s rfl h8
    have h6 : parseFields (n + 3) [("other", entryLink "e1")] false
        ⟨[("e2", markedSlot cycleE2 "e2"), ("e1", [("_deferred", cycleE1)])], ["e1", "e2"]⟩ [] = .out s :=
      parseFields_single_obj_out (n + 2) "other" _ _ s h7
    have h5 : parseEntry (n + 4) cycleE2 false
        ⟨[("e2", markedSlot cycleE2 "e2"), ("e1", [("_deferred", cycleE1)])], ["e1"]⟩ = .out s :=
      parseEntry_out (n + 3) cycleE2 false _ s h6
    have h4 : dereferenceLink (n + 5) (entryLink "e2")
        none ⟨[("e2", [("_deferred", cycleE2)]), ("e1", [("_deferred", cycleE1)])], ["e1"]⟩ = .out s :=
      dereferenceLink_defer_out (n + 4) (entryLink "e2") _ "e2" [("_deferred", cycleE2)] s rfl rfl rfl h5
    have h3 : parseValue (n + 6) (entryLink "e2")
        none ⟨[("e2", [("_deferred", cycleE2)]), ("e1", [("_deferred", cycleE1)])], ["e1"]⟩ = .out s :=
      parseValue_link_out (n + 5) _ _ s rfl h4
    have h2 : parseFields (n + 7) [("other", entryLink "e2")] false
        ⟨[("e2", [("_deferred", cycleE2)]), ("e1", [("_deferred", cycleE1)])], ["e1"]⟩ [] = .out s :=
      parseFields_single_obj_out (n + 6) "other" _ _ s h3
    have h1 : parseEntry (n + 8) cycleE1 false
        ⟨[("e2", [("_deferred", cycleE2)]), ("e1", [("_deferred", cycleE1)])], []⟩ = .out s :=
      parseEntry_out (n + 7) cycleE1 false _ s h2
    have h0 : parseEntries (n + 9) [cycleE1] false
        ⟨[("e2", [("_deferred", cycleE2)]), ("e1", [("_deferred", cycleE1)])], []⟩ = .out s :=
      parseEntries_cons_out (n + 8) cycleE1 [] false _ "e1" [("_deferred", cycleE1)] s rfl rfl rfl h1
    have hq : runQuery (n + 9) payloadCycle none none [] = .ok (.out s) :=
      runQuery_out (n + 9) payloadCycle none [] _ s rfl h0
    rw [hq]
    rfl

/-- C1, counterexample: on the cyclic payload resolution of the id `e1` is
entered twice within one query (the ghost trace records each time
`_parseEntry` starts resolving a record's fields), so resolution does not
happen at most once per id for every payload. -/
theorem c1_counterexample :
    (traceOfRun (runQuery 10 payloadCycle none none [])).count "e1" = 2 ∧
    traceOfRun (runQuery 10 payloadCycle none none []) = ["e1", "e2", "e1"] := by
  exact ⟨rfl, rfl⟩

/-- Mutating one slot in place never changes which ids the index holds. -/
theorem mapSlot_keys (links : List (String × JObj)) (id : String) (g : JObj → JObj) :
    (links.map (fun p => if p.1 == id then (p.1, g p.2) else p)).map Prod.fst =
      links.map Prod.fst := by
  rw [List.map_map]
  exact List.map_congr_left (fun p _ => by simp only [Function.comp_apply]; split <;> rfl)

/-- Stamping a slot property keeps the index ids. -/
theorem setSlotField_keys (st : St) (id k : String) (v : JVal) :
    (setSlotField st id k v).links.map Prod.fst = st.links.map Prod.fst :=
  mapSlot_keys st.links id (fun o => oset o k v)

/-- Merging parsed fields onto a slot keeps the index ids. -/
theorem assignSlot_keys (st : St) (id : String) (src : JObj) :
    (assignSlot st id src).links.map Prod.fst = st.links.map Prod.fst :=
  mapSlot_keys st.links id (fun o => oassign o src)

/-- Deleting a slot property keeps the index ids. -/
theorem delSlotField_keys (st : St) (id k : String) :
    (delSlotField st id k).links.map Prod.fst = st.links.map Prod.fst :=
  mapSlot_keys st.links id (fun o => odel o k)

/-- Looking up a slot after mutating it in place yields the mutated object. -/
theorem linkAt_mapSlot (links : List (String × JObj)) (id : String) (g : JObj → JObj)
    (sl : JObj) (h : linkAt links id = some sl) :
    linkAt (links.map (fun p => if p.1 == id then (p.1, g p.2) else p)) id = some (g sl) := by
  induction links with
  | nil => simp [linkAt, List.find?] at h
  | cons p rest ih =>
    obtain ⟨k0, v0⟩ := p
    by_cases hk : k0 = id
    · subst hk
      rw [linkAt_cons, if_pos rfl] at h
      rw [List.map_cons]
      have : ((k0, v0).1 == k0) = true := by simp
      simp only [this, if_true]
      rw [linkAt_cons, if_pos rfl]
      cases h
      rfl
    · rw [linkAt_cons, if_neg hk] at h
      rw [List.map_cons]
      have hb : ((k0, v0).1 == id) = false := by simp [hk]
      simp only [hb, Bool.false_eq_true, if_false]
      rw [linkAt_cons, if_neg hk]
      exact ih h

/-- A lookup misses exactly when the id is not among the index ids. -/
theorem linkAt_eq_none_iff (links : List (String × JObj)) (id : String) :
    linkAt links id = none ↔ id ∉ links.map Prod.fst := by
  induction links with
  | nil => simp [linkAt, List.find?]
  | cons p rest ih =>
    obtain ⟨k0, v0⟩ := p
    by_cases hk : k0 = id
    · subst hk
      simp [linkAt_cons]
    · simp [linkAt_cons, hk, ih]
      exact fun _ h => hk h.symm

/-- A lookup hits whenever the id is among the index ids. -/
theorem linkAt_isSome_of_mem (links : List (String × JObj)) (id : String)
    (h : id ∈ links.map Prod.fst) : ∃ sl, linkAt links id = some sl := by
  cases hl : linkAt links id with
  | none => exact absurd ((linkAt_eq_none_iff links id).mp hl) (not_not_intro h)
  | some sl => exact ⟨sl, rfl⟩

/-- Single-locale resolution never adds or removes link-index slots: every
finished run of the resolver functions leaves the same ids, in the same
order, in the index (slots are only mutated in place). -/
theorem linksKeys_preserved : ∀ fuel : Nat,
    (∀ e st res st1, parseEntry fuel e false st = .ok res st1 →
      st1.links.map Prod.fst = st.links.map Prod.fst) ∧
    (∀ l st acc res st1, parseFields fuel l false st acc = .ok res st1 →
      st1.links.map Prod.fst = st.links.map Prod.fst) ∧
    (∀ v st res st1, parseValue fuel v none st = .ok res st1 →
      st1.links.map Prod.fst = st.links.map Prod.fst) ∧
    (∀ xs st res st1, parseValueList fuel xs none st = .ok res st1 →
      st1.links.map Prod.fst = st.links.map Prod.fst) ∧
    (∀ r st res st1, dereferenceLink fuel r none st = .ok res st1 →
      st1.links.map Prod.fst = st.links.map Prod.fst) := by
  intro fuel
  induction fuel with
  | zero =>
    exact ⟨fun e st res st1 h => PRes.noConfusion h,
      fun l st acc res st1 h => PRes.noConfusion h,
      fun v st res st1 h => PRes.noConfusion h,
      fun xs st res st1 h => PRes.noConfusion h,
      fun r st res st1 h => PRes.noConfusion h⟩
  | succ f ih =>
    obtain ⟨ihE, ihF, ihV, ihL, ihD⟩ := ih
    refine ⟨?_, ?_, ?_, ?_, ?_⟩
    · intro e st res st1 h
      have h2 : parseFields f (entriesJ (oget e "fields")) false
          { st with trace := st.trace ++ [jstrD (oget (oget e "sys") "id") ""] } [] =
          .ok res st1 := h
      exact ihF _ { st with trace := st.trace ++ [jstrD (oget (oget e "sys") "id") ""] } _ _ _ h2
    · intro l st acc res st1 h
      cases l with
      | nil => cases h; rfl
      | cons p rest =>
        obtain ⟨key, value⟩ := p
        simp only [parseFields, Bool.false_eq_true, if_false] at h
        by_cases ha : isArr value = true
        · rw [if_pos ha] at h
          cases hv : parseValueList f (arrElems value) none st with
          | out stx => rw [hv] at h; exact PRes.noConfusion h
          | ok lst stx =>
            rw [hv] at h
            exact (ihF _ _ _ _ _ h).trans (ihL _ _ _ _ hv)
        · rw [if_neg ha] at h
          cases hv : parseValue f value none st with
          | out stx => rw [hv] at h; exact PRes.noConfusion h
          | ok pv stx =>
            rw [hv] at h
            exact (ihF _ _ _ _ _ h).trans (ihV _ _ _ _ hv)
    · intro v st res st1 h
      simp only [parseValue] at h
      by_cases hl : isStrEq (oget (oget v "sys") "type") "Link" = true
      · rw [if_pos hl] at h
        exact ihD _ _ _ _ h
      · rw [if_neg hl] at h
        cases h; rfl
    · intro xs st res st1 h
      cases xs with
      | nil => cases h; rfl
      | cons x rest =>
        simp only [parseValueList] at h
        cases hv : parseValue f x none st with
        | out stx => simp only [hv] at h; exact PRes.noConfusion h
        | ok pv stx =>
          simp only [hv] at h
          cases hr : parseValueList f rest none stx with
          | out sty => simp only [hr] at h; exact PRes.noConfusion h
          | ok vs sty =>
            simp only [hr] at h
            obtain ⟨-, rfl⟩ := h
            exact (ihL _ _ _ _ hr).trans (ihV _ _ _ _ hv)
    · intro r st res st1 h
      simp only [dereferenceLink] at h
      split at h
      · rename_i mid heq
        cases hs : getSlot st mid with
        | none => simp only [hs] at h; cases h; rfl
        | some link =>
          simp only [hs, Option.isSome_none] at h
          by_cases hd : truthy (ogetO link "_deferred") = true
          · rw [if_pos hd] at h
            cases hp : parseEntry f (ogetO link "_deferred") false
                (setSlotField (setSlotField st mid "_id" (JVal.str mid)) mid "_type"
                  (oget (oget (oget (oget (ogetO link "_deferred") "sys") "contentType") "sys") "id")) with
            | out st3 => simp only [hp] at h; exact PRes.noConfusion h
            | ok parsed st3 =>
              simp only [hp] at h
              obtain ⟨-, rfl⟩ := h
              calc (delSlotField (assignSlot st3 mid parsed) mid "_deferred").links.map Prod.fst
                  = (assignSlot st3 mid parsed).links.map Prod.fst := delSlotField_keys _ _ _
                _ = st3.links.map Prod.fst := assignSlot_keys _ _ _
                _ = _ := by
                    rw [ihE _ _ _ _ hp, setSlotField_keys, setSlotField_keys]
          · rw [if_neg hd] at h
            cases h
            exact setSlotField_keys _ _ _ _
      · rename_i heq
        cases h; rfl

/-- Keys of the fields object built by the field loop come from the
accumulator or from the declared field keys — resolution invents no keys. -/
theorem parseFields_keys_sub : ∀ fuel : Nat, ∀ (l : List (String × JVal)) (multi : Bool)
    (st : St) (acc res : JObj) (st1 : St),
    parseFields fuel l multi st acc = .ok res st1 →
    ∀ k, k ∈ res.map Prod.fst → k ∈ acc.map Prod.fst ∨ k ∈ l.map Prod.fst := by
  intro fuel
  induction fuel with
  | zero => intro l multi st acc res st1 h; exact absurd h (fun hh => PRes.noConfusion hh)
  | succ f ih =>
    intro l multi st acc res st1 h
    cases l with
    | nil =>
      cases h
      exact fun k hk => Or.inl hk
    | cons p rest =>
      obtain ⟨key, value⟩ := p
      simp only [parseFields] at h
      cases multi with
      | true =>
        rw [if_pos rfl] at h
        cases hv : parseValueByLocale f value st with
        | out stx => simp only [hv] at h; exact PRes.noConfusion h
        | ok pl stx =>
          simp only [hv] at h
          intro k hk
          rcases ih rest true stx _ res st1 h k hk with hacc | hrest
          · by_cases he : isEmptyL stx.links pl = true
            · rw [if_pos he] at hacc
              exact Or.inl hacc
            · rw [if_neg he] at hacc
              rcases (mem_oset_keys acc key k _).mp hacc with hin | rfl
              · exact Or.inl hin
              · exact Or.inr (by simp)
          · exact Or.inr (by simp [hrest])
      | false =>
        rw [if_neg (by simp)] at h
        by_cases ha : isArr value = true
        · rw [if_pos ha] at h
          cases hv : parseValueList f (arrElems value) none st with
          | out stx => simp only [hv] at h; exact PRes.noConfusion h
          | ok lst stx =>
            simp only [hv] at h
            intro k hk
            rcases ih rest false stx _ res st1 h k hk with hacc | hrest
            · rcases (mem_oset_keys acc key k _).mp hacc with hin | rfl
              · exact Or.inl hin
              · exact Or.inr (by simp)
            · exact Or.inr (by simp [hrest])
        · rw [if_neg ha] at h
          cases hv : parseValue f value none st with
          | out stx => simp only [hv] at h; exact PRes.noConfusion h
          | ok pv stx =>
            simp only [hv] at h
            intro k hk
            rcases ih rest false stx _ res st1 h k hk with hacc | hrest
            · by_cases he : isEmptyL stx.links pv = true
              · rw [if_pos he] at hacc
                exact Or.inl hacc
              · rw [if_neg he] at hacc
                rcases (mem_oset_keys acc key k _).mp hacc with hin | rfl
                · exact Or.inl hin
                · exact Or.inr (by simp)
            · exact Or.inr (by simp [hrest])

/-- Dereferencing an id with no slot returns `undefined` and leaves the
state untouched (the `bail if no link` branch). -/
theorem dereferenceLink_missing (fuel : Nat) (r : JVal) (st : St) (xid : String)
    (h1 : oget (oget r "sys") "id" = JVal.str xid)
    (h2 : getSlot st xid = none) :
    dereferenceLink (fuel + 1) r none st = .ok JVal.undef st := by
  simp only [dereferenceLink, h1, h2]

/-- Single-locale field resolution of an entry whose fields contain one
reference to an id absent from the link index: that field key never reaches
the output fields object. -/
theorem parseFields_missing_link : ∀ fuel : Nat, ∀ (pre post : List (String × JVal))
    (key xid : String) (st : St) (acc res : JObj) (st1 : St),
    xid ∉ st.links.map Prod.fst →
    key ∉ pre.map Prod.fst → key ∉ post.map Prod.fst → key ∉ acc.map Prod.fst →
    parseFields fuel (pre ++ (key, entryLink xid) :: post) false st acc = .ok res st1 →
    key ∉ res.map Prod.fst := by
  intro fuel
  induction fuel with
  | zero =>
    intro pre post key xid st acc res st1 _ _ _ _ h
    exact absurd h (fun hh => PRes.noConfusion hh)
  | succ f ih =>
    intro pre post key xid st acc res st1 hx hpre hpost hacc h
    cases pre with
    | nil =>
      simp only [List.nil_append, parseFields] at h
      rw [if_neg (by simp)] at h
      rw [if_neg (by simp [entryLink, isArr])] at h
      cases f with
      | zero => simp only [parseValue] at h; exact PRes.noConfusion h
      | succ g =>
        cases g with
        | zero =>
          have hpv : parseValue 1 (entryLink xid) none st =
              dereferenceLink 0 (entryLink xid) none st := rfl
          rw [hpv] at h
          simp only [dereferenceLink] at h
          exact PRes.noConfusion h
        | succ u =>
          have hpv : parseValue (u + 2) (entryLink xid) none st =
              dereferenceLink (u + 1) (entryLink xid) none st := rfl
          rw [hpv, dereferenceLink_missing (u) (entryLink xid) st xid rfl
            ((linkAt_eq_none_iff st.links xid).mpr hx)] at h
          simp only [isEmptyL, if_true] at h
          intro hk
          rcases parseFields_keys_sub (u + 2) post false st acc res st1 h key hk with hin | hin
          · exact hacc hin
          · exact hpost hin
    | cons p pre1 =>
      obtain ⟨k0, v0⟩ := p
      have hk0 : key ≠ k0 := by
        intro he
        exact hpre (by simp [he])
      have hpre1 : key ∉ pre1.map Prod.fst := by
        intro hm
        exact hpre (by simp [hm])
      simp only [List.cons_append, parseFields] at h
      rw [if_neg (by simp)] at h
      by_cases ha : isArr v0 = true
      · rw [if_pos ha] at h
        cases hv : parseValueList f (arrElems v0) none st with
        | out stx => simp only [hv] at h; exact PRes.noConfusion h
        | ok lst stx =>
          simp only [hv] at h
          have hx1 : xid ∉ stx.links.map Prod.fst := by
            rw [(linksKeys_preserved f).2.2.2.1 _ _ _ _ hv]
            exact hx
          have hacc1 : key ∉ (oset acc k0 (JVal.arr (jsCompact lst))).map Prod.fst := by
            rw [mem_oset_keys]
            rintro (hin | rfl)
            · exact hacc hin
            · exact hk0 rfl
          exact ih pre1 post key xid stx _ res st1 hx1 hpre1 hpost hacc1 h
      · rw [if_neg ha] at h
        cases hv : parseValue f v0 none st with
        | out stx => simp only [hv] at h; exact PRes.noConfusion h
        | ok pv stx =>
          simp only [hv] at h
          have hx1 : xid ∉ stx.links.map Prod.fst := by
            rw [(linksKeys_preserved f).2.2.1 _ _ _ _ hv]
            exact hx
          have hacc1 : key ∉ (if isEmptyL stx.links pv = true then acc
              else oset acc k0 pv).map Prod.fst := by
            split
            · exact hacc
            · rw [mem_oset_keys]
              rintro (hin | rfl)
              · exact hacc hin
              · exact hk0 rfl
          exact ih pre1 post key xid stx _ res st1 hx1 hpre1 hpost hacc1 h

/-- C6: dereferencing a reference whose id has no slot in the link index
returns no value (`undefined`) without error and without touching the
state; and a single-locale entry field holding such a reference is absent
from the resolved fields object — the key is simply not there, rather than
present with a null value. -/
theorem c6 :
    (∀ fuel : Nat, ∀ r : JVal, ∀ st : St, ∀ xid : String,
      oget (oget r "sys") "id" = JVal.str xid →
      getSlot st xid = none →
      dereferenceLink (fuel + 1) r none st = .ok JVal.undef st) ∧
    (∀ fuel : Nat, ∀ eid ct key xid : String, ∀ pre post : List (String × JVal),
      ∀ st : St, ∀ res : JObj, ∀ st1 : St,
      xid ∉ st.links.map Prod.fst →
      key ∉ pre.map Prod.fst → key ∉ post.map Prod.fst →
      parseEntry fuel (mkEntry eid ct (pre ++ (key, entryLink xid) :: post)) false st = .ok res st1 →
      key ∉ res.map Prod.fst) := by
  constructor
  · intro fuel r st xid h1 h2
    exact dereferenceLink_missing fuel r st xid h1 h2
  · intro fuel eid ct key xid pre post st res st1 hx hpre hpost h
    cases fuel with
    | zero => exact absurd h (fun hh => PRes.noConfusion hh)
    | succ f =>
      have h2 : parseFields f (pre ++ (key, entryLink xid) :: post) false
          { st with trace := st.trace ++ [eid] } [] = .ok res st1 := h
      exact parseFields_missing_link f pre post key xid
        { st with trace := st.trace ++ [eid] } [] res st1 hx hpre hpost (by simp) h2

/-- C6, witness: dereferencing the unlinked id `nope` yields `undefined`
with the empty index untouched, and the field `miss` of the concrete entry
holding just that broken reference is absent from the resolved fields. -/
theorem c6_witness :
    dereferenceLink 1 (entryLink "nope") none ⟨[], []⟩ = .ok JVal.undef ⟨[], []⟩ ∧
    "miss" ∉ ([] : JObj).map Prod.fst :=
  ⟨c6.1 0 (entryLink "nope") ⟨[], []⟩ "nope" rfl rfl,
   c6.2 5 "x" "t" "miss" "nope" [] [] ⟨[], []⟩ [] ⟨[], ["x"]⟩
     (by simp) (by simp) (by simp) rfl⟩

/-- Dereferencing an id whose slot is already resolved (no `_deferred`)
returns a reference to the slot after re-stamping its `_id` — no recursive
resolution happens. -/
theorem dereferenceLink_resolved (fuel : Nat) (r : JVal) (st : St) (mid : String) (sl : JObj)
    (href : oget (oget r "sys") "id" = JVal.str mid)
    (hsl : getSlot st mid = some sl)
    (hnd : truthy (ogetO sl "_deferred") = false) :
    dereferenceLink (fuel + 1) r none st =
      .ok (JVal.ref mid) (setSlotField st mid "_id" (JVal.str mid)) := by
  simp only [dereferenceLink, href, hsl, hnd, Bool.false_eq_true, if_false]

/-- C7: a single-locale entry field holding an array of one resolvable
reference (a resolved slot `id1`) and one unresolvable reference (`id2`
absent from the index) resolves, in either element order, to the
one-element array holding just the reference to `id1` — the unresolvable
element is dropped by `_.compact`, leaving neither a hole nor a null. -/
theorem c7 (f : Nat) (eid ct key id1 id2 : String) (st : St) (sl : JObj)
    (hsl : getSlot st id1 = some sl)
    (hnd : truthy (ogetO sl "_deferred") = false)
    (hab : getSlot st id2 = none) :
    parseEntry (f + 6) (mkEntry eid ct [(key, JVal.arr [assetLink id1, assetLink id2])]) false st =
      .ok [(key, JVal.arr [JVal.ref id1])]
        (setSlotField { st with trace := st.trace ++ [eid] } id1 "_id" (JVal.str id1)) ∧
    parseEntry (f + 6) (mkEntry eid ct [(key, JVal.arr [assetLink id2, assetLink id1])]) false st =
      .ok [(key, JVal.arr [JVal.ref id1])]
        (setSlotField { st with trace := st.trace ++ [eid] } id1 "_id" (JVal.str id1)) := by
  have hid2 : id2 ∉ st.links.map Prod.fst := (linkAt_eq_none_iff _ _).mp hab
  refine ⟨?_, ?_⟩
  · have hsl1 : getSlot { st with trace := st.trace ++ [eid] } id1 = some sl := hsl
    have hv1 : parseValue (f + 3) (assetLink id1) none { st with trace := st.trace ++ [eid] } =
        .ok (JVal.ref id1)
          (setSlotField { st with trace := st.trace ++ [eid] } id1 "_id" (JVal.str id1)) :=
      dereferenceLink_resolved (f + 1) (assetLink id1) _ id1 sl rfl hsl1 hnd
    have hab2 : getSlot (setSlotField { st with trace := st.trace ++ [eid] } id1 "_id"
        (JVal.str id1)) id2 = none := by
      apply (linkAt_eq_none_iff _ _).mpr
      rw [setSlotField_keys]
      exact hid2
    have hv2 : parseValue (f + 2) (assetLink id2) none
        (setSlotField { st with trace := st.trace ++ [eid] } id1 "_id" (JVal.str id1)) =
        .ok JVal.undef
          (setSlotField { st with trace := st.trace ++ [eid] } id1 "_id" (JVal.str id1)) :=
      dereferenceLink_missing f (assetLink id2) _ id2 rfl hab2
    have hlist : parseValueList (f + 4) [assetLink id1, assetLink id2] none
        { st with trace := st.trace ++ [eid] } =
        .ok [JVal.ref id1, JVal.undef]
          (setSlotField { st with trace := st.trace ++ [eid] } id1 "_id" (JVal.str id1)) := by
      simp only [parseValueList, hv1, hv2]
    have hpf : parseFields (f + 5) [(key, JVal.arr [assetLink id1, assetLink id2])] false
        { st with trace := st.trace ++ [eid] } [] =
        .ok [(key, JVal.arr [JVal.ref id1])]
          (setSlotField { st with trace := st.trace ++ [eid] } id1 "_id" (JVal.str id1)) := by
      simp only [parseFields, Bool.false_eq_true, if_false, isArr, if_true, arrElems, hlist,
        jsCompact, List.filter, truthy, oset]
    exact hpf
  · have hab1 : getSlot { st with trace := st.trace ++ [eid] } id2 = none := hab
    have hv2 : parseValue (f + 3) (assetLink id2) none { st with trace := st.trace ++ [eid] } =
        .ok JVal.undef { st with trace := st.trace ++ [eid] } :=
      dereferenceLink_missing (f + 1) (assetLink id2) _ id2 rfl hab1
    have hsl1 : getSlot { st with trace := st.trace ++ [eid] } id1 = some sl := hsl
    have hv1 : parseValue (f + 2) (assetLink id1) none { st with trace := st.trace ++ [eid] } =
        .ok (JVal.ref id1)
          (setSlotField { st with trace := st.trace ++ [eid] } id1 "_id" (JVal.str id1)) :=
      dereferenceLink_resolved f (assetLink id1) _ id1 sl rfl hsl1 hnd
    have hlist : parseValueList (f + 4) [assetLink id2, assetLink id1] none
        { st with trace := st.trace ++ [eid] } =
        .ok [JVal.undef, JVal.ref id1]
          (setSlotField { st with trace := st.trace ++ [eid] } id1 "_id" (JVal.str id1)) := by
      simp only [parseValueList, hv1, hv2]
    have hpf : parseFields (f + 5) [(key, JVal.arr [assetLink id2, assetLink id1])] false
        { st with trace := st.trace ++ [eid] } [] =
        .ok [(key, JVal.arr [JVal.ref id1])]
          (setSlotField { st with trace := st.trace ++ [eid] } id1 "_id" (JVal.str id1)) := by
      simp only [parseFields, Bool.false_eq_true, if_false, isArr, if_true, arrElems, hlist,
        jsCompact, List.filter, truthy, oset]
    exact hpf

/-- C7, witness: the concrete entry whose `refs` field holds one reference
to the resolved media slot `m1` and one to the unlinked `nope` resolves to
the one-element array holding the `m1` reference. -/
theorem c7_witness :
    parseEntry 6 (mkEntry "x" "t" [("refs", JVal.arr [assetLink "m1", assetLink "nope"])]) false
      ⟨[("m1", [("_id", JVal.str "m1"), ("url", JVal.str "/m.png")])], []⟩ =
      .ok [("refs", JVal.arr [JVal.ref "m1"])]
        ⟨[("m1", [("_id", JVal.str "m1"), ("url", JVal.str "/m.png")])], ["x"]⟩ :=
  (c7 0 "x" "t" "refs" "m1" "nope"
    ⟨[("m1", [("_id", JVal.str "m1"), ("url", JVal.str "/m.png")])], []⟩
    [("_id", JVal.str "m1"), ("url", JVal.str "/m.png")] rfl rfl rfl).1

/-- Cons step of a property read. -/
theorem ogetO_cons (k0 : String) (v0 : JVal) (rest : JObj) (k : String) :
    ogetO ((k0, v0) :: rest) k = if k0 = k then v0 else ogetO rest k := by
  by_cases h : k0 = k
  · simp [ogetO, List.find?, h]
  · have hb : (k0 == k) = false := by simp [h]
    simp [ogetO, List.find?, hb, h]

/-- Writing one property leaves the others readable unchanged. -/
theorem ogetO_oset_ne (l : JObj) (k k2 : String) (v : JVal) (h : k ≠ k2) :
    ogetO (oset l k v) k2 = ogetO l k2 := by
  induction l with
  | nil => simp [oset, ogetO_cons, h, ogetO]
  | cons p rest ih =>
    obtain ⟨k0, v0⟩ := p
    rw [oset_cons]
    by_cases hp : k0 = k
    · subst hp
      rw [if_pos rfl, ogetO_cons, ogetO_cons, if_neg h, if_neg h]
    · rw [if_neg hp, ogetO_cons, ogetO_cons, ih]

/-- A deleted property reads back as `undefined`. -/
theorem ogetO_odel_self (o : JObj) (k : String) : ogetO (odel o k) k = JVal.undef := by
  induction o with
  | nil => rfl
  | cons p rest ih =>
    obtain ⟨k0, v0⟩ := p
    by_cases h : k0 = k
    · subst h
      simp only [odel, List.filter_cons]
      rw [if_neg (by simp)]
      exact ih
    · simp only [odel, List.filter_cons]
      rw [if_pos (by simp [h]), ogetO_cons, if_neg h]
      exact ih

/-- Writing a property the value it already has leaves the object itself
unchanged (the very same association list). -/
theorem oset_noop (l : JObj) (k : String) (v : JVal)
    (hv : ogetO l k = v) (hm : k ∈ l.map Prod.fst) : oset l k v = l := by
  induction l with
  | nil => simp at hm
  | cons p rest ih =>
    obtain ⟨k0, v0⟩ := p
    by_cases h : k0 = k
    · subst h
      rw [ogetO_cons, if_pos rfl] at hv
      rw [oset_cons, if_pos rfl, hv]
    · rw [ogetO_cons, if_neg h] at hv
      have hm1 : k ∈ rest.map Prod.fst := by
        simp only [List.map_cons, List.mem_cons] at hm
        rcases hm with he | ht
        · exact absurd he.symm h
        · exact ht
      rw [oset_cons, if_neg h, ih hv hm1]

/-- Mutating an id that holds no slot is a no-op on the index. -/
theorem mapSlot_id_of_not_mem (links : List (String × JObj)) (id : String) (g : JObj → JObj)
    (h : id ∉ links.map Prod.fst) :
    links.map (fun p => if p.1 == id then (p.1, g p.2) else p) = links := by
  induction links with
  | nil => rfl
  | cons p rest ih =>
    obtain ⟨k0, v0⟩ := p
    have hk : k0 ≠ id := by
      intro he
      exact h (by simp [he])
    have ht : id ∉ rest.map Prod.fst := by
      intro hm
      exact h (by simp [hm])
    simp only [List.map_cons]
    rw [ih ht]
    have hb : ((k0, v0).1 == id) = false := by simp [hk]
    simp [hb]

/-- Re-writing a slot property with the value it already holds leaves a
duplicate-free index unchanged. -/
theorem linksMap_noop (links : List (String × JObj)) (id k : String) (v : JVal) (sl : JObj)
    (hnodup : (links.map Prod.fst).Nodup)
    (hsl : linkAt links id = some sl)
    (hv : ogetO sl k = v) (hm : k ∈ sl.map Prod.fst) :
    links.map (fun p => if p.1 == id then (p.1, oset p.2 k v) else p) = links := by
  induction links with
  | nil => rfl
  | cons p rest ih =>
    obtain ⟨k0, v0⟩ := p
    rw [linkAt_cons] at hsl
    simp only [List.map_cons, List.nodup_cons] at hnodup
    obtain ⟨hn1, hn2⟩ := hnodup
    simp only [List.map_cons]
    by_cases hk : k0 = id
    · subst hk
      rw [if_pos rfl] at hsl
      injection hsl with hv0
      subst hv0
      have hb : ((k0, v0).1 == k0) = true := by simp
      simp only [hb, if_true]
      rw [oset_noop v0 k v hv hm]
      rw [mapSlot_id_of_not_mem rest k0 (fun o => oset o k v) hn1]
    · rw [if_neg hk] at hsl
      have hb : ((k0, v0).1 == id) = false := by simp [hk]
      simp only [hb, Bool.false_eq_true, if_false]
      rw [ih hn2 hsl]

/-- Re-stamping a slot property with its current value is the identity on
the whole state. -/
theorem setSlotField_noop (st : St) (id k : String) (v : JVal) (sl : JObj)
    (hnodup : (st.links.map Prod.fst).Nodup)
    (hsl : getSlot st id = some sl)
    (hv : ogetO sl k = v) (hm : k ∈ sl.map Prod.fst) :
    setSlotField st id k v = st := by
  show ({ st with
    links := st.links.map (fun p => if p.1 == id then (p.1, oset p.2 k v) else p) } : St) = st
  rw [linksMap_noop st.links id k v sl hnodup hsl hv hm]

/-- Dereferencing a still-deferred slot stamps `_id` and `_type` and then
hands the record to `_parseEntry`, merging its result onto the slot and
dropping the `_deferred` marker. -/
theorem dereferenceLink_deferred (fuel : Nat) (r : JVal) (st : St) (mid : String) (sl : JObj)
    (href : oget (oget r "sys") "id" = JVal.str mid)
    (hsl : getSlot st mid = some sl)
    (hd : truthy (ogetO sl "_deferred") = true) :
    dereferenceLink (fuel + 1) r none st =
      match parseEntry fuel (ogetO sl "_deferred") false
        (setSlotField (setSlotField st mid "_id" (JVal.str mid)) mid "_type"
          (oget (oget (oget (oget (ogetO sl "_deferred") "sys") "contentType") "sys") "id")) with
      | .out st3 => .out st3
      | .ok parsed st3 =>
        .ok (JVal.ref mid) (delSlotField (assignSlot st3 mid parsed) mid "_deferred") := by
  simp only [dereferenceLink, href, hsl, hd, if_true, Option.isSome_none]

/-- An id with a slot is among the index ids. -/
theorem mem_of_getSlot_some (st : St) (id : String) (sl : JObj)
    (h : getSlot st id = some sl) : id ∈ st.links.map Prod.fst := by
  by_contra hc
  rw [show getSlot st id = linkAt st.links id from rfl,
    (linkAt_eq_none_iff st.links id).mpr hc] at h
  exact Option.noConfusion h

/-- C1, amended: provided a dereference of `id` completes (which a reference
cycle prevents — see the counterexample and C2), it returns the reference to
the id's slot, leaves that slot resolved (no `_deferred`), and every later
dereference of the same id returns the identical reference without
re-entering resolution: its only effect is re-stamping the slot's `_id`
with the same id, which changes neither the ghost trace (no new resolution
event) nor — when the index is duplicate-free and `_id` already holds the
id — the state at all.  The top-level item list behaves the same way: an
item whose slot is already resolved yields the same slot reference with no
new resolution event. -/
theorem c1_amended (f1 f2 : Nat) (st : St) (id : String) (sl : JObj) (v : JVal) (st1 : St)
    (hsl : getSlot st id = some sl)
    (h1 : dereferenceLink (f1 + 1) (entryLink id) none st = .ok v st1) :
    v = JVal.ref id ∧
    (∃ sl1, getSlot st1 id = some sl1 ∧ truthy (ogetO sl1 "_deferred") = false) ∧
    dereferenceLink (f2 + 1) (entryLink id) none st1 =
      .ok (JVal.ref id) (setSlotField st1 id "_id" (JVal.str id)) ∧
    (setSlotField st1 id "_id" (JVal.str id)).trace = st1.trace ∧
    ((st1.links.map Prod.fst).Nodup →
      ∀ sl1, getSlot st1 id = some sl1 → ogetO sl1 "_id" = JVal.str id →
      "_id" ∈ sl1.map Prod.fst →
      dereferenceLink (f2 + 1) (entryLink id) none st1 = .ok (JVal.ref id) st1) ∧
    (∀ f : Nat, ∀ ct : String, ∀ efl : JObj, ∀ st2 : St, ∀ sl2 : JObj,
      getSlot st2 id = some sl2 → truthy (ogetO sl2 "_deferred") = false →
      ∃ stf, parseEntries (f + 2) [mkEntry id ct efl] false st2 = .ok [JVal.ref id] stf ∧
        stf.trace = st2.trace ∧ stf.links.map Prod.fst = st2.links.map Prod.fst) := by
  have hres : v = JVal.ref id ∧
      ∃ sl1, getSlot st1 id = some sl1 ∧ truthy (ogetO sl1 "_deferred") = false := by
    by_cases hd : truthy (ogetO sl "_deferred") = true
    · rw [dereferenceLink_deferred f1 (entryLink id) st id sl rfl hsl hd] at h1
      cases hp : parseEntry f1 (ogetO sl "_deferred") false
          (setSlotField (setSlotField st id "_id" (JVal.str id)) id "_type"
            (oget (oget (oget (oget (ogetO sl "_deferred") "sys") "contentType") "sys") "id")) with
      | out st3 => simp only [hp] at h1; exact PRes.noConfusion h1
      | ok parsed st3 =>
        simp only [hp] at h1
        injection h1 with hva hsa
        refine ⟨hva.symm, ?_⟩
        have hmem : id ∈ st3.links.map Prod.fst := by
          rw [(linksKeys_preserved f1).1 _ _ _ _ hp, setSlotField_keys, setSlotField_keys]
          exact mem_of_getSlot_some st id sl hsl
        obtain ⟨sl3, hsl3⟩ := linkAt_isSome_of_mem st3.links id hmem
        have hassign : linkAt (assignSlot st3 id parsed).links id = some (oassign sl3 parsed) :=
          linkAt_mapSlot st3.links id (fun o => oassign o parsed) sl3 hsl3
        have hdel : linkAt (delSlotField (assignSlot st3 id parsed) id "_deferred").links id =
            some (odel (oassign sl3 parsed) "_deferred") :=
          linkAt_mapSlot (assignSlot st3 id parsed).links id (fun o => odel o "_deferred") _ hassign
        refine ⟨odel (oassign sl3 parsed) "_deferred", ?_, ?_⟩
        · rw [← hsa]
          exact hdel
        · rw [ogetO_odel_self]
          rfl
    · have hnd : truthy (ogetO sl "_deferred") = false := Bool.eq_false_iff.mpr hd
      rw [dereferenceLink_resolved f1 (entryLink id) st id sl rfl hsl hnd] at h1
      injection h1 with hva hsa
      refine ⟨hva.symm, oset sl "_id" (JVal.str id), ?_, ?_⟩
      · rw [← hsa]
        exact linkAt_mapSlot st.links id (fun o => oset o "_id" (JVal.str id)) sl hsl
      · rw [ogetO_oset_ne sl "_id" "_deferred" (JVal.str id) (by decide)]
        exact hnd
  obtain ⟨hv, sl1, hsl1, hnd1⟩ := hres
  refine ⟨hv, ⟨sl1, hsl1, hnd1⟩, ?_, rfl, ?_, ?_⟩
  · exact dereferenceLink_resolved f2 (entryLink id) st1 id sl1 rfl hsl1 hnd1
  · intro hnodup sl1x hsl1x hidx hmx
    have hslx : sl1x = sl1 := by
      rw [hsl1] at hsl1x
      injection hsl1x.symm
    have hres2 := dereferenceLink_resolved f2 (entryLink id) st1 id sl1x rfl hsl1x
      (by rw [hslx]; exact hnd1)
    rw [setSlotField_noop st1 id "_id" (JVal.str id) sl1x hnodup hsl1x hidx hmx] at hres2
    exact hres2
  · intro f ct efl st2 sl2 hsl2 hnd2
    refine ⟨setSlotField (setSlotField st2 id "_id" (JVal.str id)) id "_type" (JVal.str ct),
      ?_, rfl, ?_⟩
    · have hidv : oget (oget (mkEntry id ct efl) "sys") "id" = JVal.str id := rfl
      have hct : oget (oget (oget (oget (mkEntry id ct efl) "sys") "contentType") "sys") "id" =
          JVal.str ct := rfl
      have hupd : truthy (oget (oget (mkEntry id ct efl) "sys") "updatedAt") = false := rfl
      simp only [parseEntries, hidv, hsl2, hnd2, Bool.false_eq_true, if_false, hct, hupd]
    · rw [setSlotField_keys, setSlotField_keys]

/-- C1, witness: after resolving the concrete deferred slot `d1` once, a
second dereference returns the identical reference and leaves the state
literally unchanged. -/
theorem c1_witness :
    dereferenceLink 1 (entryLink "d1") none
      ⟨[("d1", [("_id", JVal.str "d1"), ("_type", JVal.str "post"), ("t", JVal.str "v")])], ["d1"]⟩ =
      .ok (JVal.ref "d1")
        ⟨[("d1", [("_id", JVal.str "d1"), ("_type", JVal.str "post"), ("t", JVal.str "v")])], ["d1"]⟩ :=
  (c1_amended 18 0
    ⟨[("d1", [("_deferred", mkEntry "d1" "post" [("t", JVal.str "v")])])], []⟩ "d1"
    [("_deferred", mkEntry "d1" "post" [("t", JVal.str "v")])] (JVal.ref "d1")
    ⟨[("d1", [("_id", JVal.str "d1"), ("_type", JVal.str "post"), ("t", JVal.str "v")])], ["d1"]⟩
    rfl rfl).2.2.2.2.1 (by simp) _ rfl rfl (by simp)
